import Mathlib

/-!
Verification of the uli-net-sim detection-and-evaluation core.

This file gives a shallow embedding, over the rationals, of the evaluation
core of the repository (src/evaluations/detectors.py, metrics.py,
optimize.py, data.py) and proves properties of it.  Machine floats are
modeled by rationals; numpy arrays by lists; a raised Python exception by
an Option/Except failure value.  The scipy nonlinear least-squares call
and the Euclidean norm (which is irrational over the rationals) are
opaque parameters of the multilateration scoring function: every theorem
about it quantifies over them.
-/

/-- Scalar Kalman filter state for tracking position error magnitude.
Embeds class PositionErrorKF of src/evaluations/detectors.py:
fields Q (process noise variance), R (measurement noise variance),
x (state estimate), P (state covariance). -/
structure PositionErrorKF where
  Q : ℚ
  R : ℚ
  x : ℚ
  P : ℚ
deriving DecidableEq

/-- Constructor defaults of PositionErrorKF.__init__:
initial_estimate = 0.0 and initial_covariance = 1000.0; the two noise
variances are the ones MultilatDetector.score passes explicitly. -/
def PositionErrorKF.init (process_noise measurement_noise : ℚ) : PositionErrorKF :=
  PositionErrorKF.mk process_noise measurement_noise 0 1000

/-- Embedding of PositionErrorKF.update (detectors.py lines 118-144).
Returns ((nis, filtered_error, innovation), updated filter state). -/
def PositionErrorKF.update (kf : PositionErrorKF) (measurement : ℚ) :
    (ℚ × ℚ × ℚ) × PositionErrorKF :=
  let x_pred := kf.x
  let P_pred := kf.P + kf.Q
  let innovation := measurement - x_pred
  let S := P_pred + kf.R
  let nis := innovation ^ 2 / S
  let K := P_pred / S
  let x2 := x_pred + K * innovation
  let P2 := (1 - K) * P_pred
  ((nis, x2, innovation), PositionErrorKF.mk kf.Q kf.R x2 P2)

/-- Folding a sequence of measurements through the filter, keeping only
the evolving state (the per-transmitter filter is updated once per
transmission of that transmitter). -/
def PositionErrorKF.run (kf : PositionErrorKF) (ms : List ℚ) : PositionErrorKF :=
  ms.foldl (fun k m => (k.update m).2) kf

/-- Innovation variance of the next update from state kf. -/
def PositionErrorKF.innovVar (kf : PositionErrorKF) : ℚ :=
  kf.P + kf.Q + kf.R

/-- Kalman gain of the next update from state kf. -/
def PositionErrorKF.gain (kf : PositionErrorKF) : ℚ :=
  (kf.P + kf.Q) / (kf.P + kf.Q + kf.R)

/-- C4: the filter update is the standard scalar Kalman step with
random-walk dynamics.  Writing x, P for the prior state and covariance
and z for the measurement: the predicted state is x itself, the
predicted covariance is P + Q, the innovation is z - x, the innovation
variance is S = P + Q + R, the NIS is (z - x)^2 / S, the gain is
K = (P + Q) / S, the new state is x + K (z - x), and the new
covariance is (1 - K) (P + Q).  Q and R are unchanged. -/
theorem positionErrorKF_update_is_standard_kalman_step
    (kf : PositionErrorKF) (z : ℚ) :
    kf.update z =
      (((z - kf.x) ^ 2 / (kf.P + kf.Q + kf.R),
        kf.x + ((kf.P + kf.Q) / (kf.P + kf.Q + kf.R)) * (z - kf.x),
        z - kf.x),
       PositionErrorKF.mk kf.Q kf.R
        (kf.x + ((kf.P + kf.Q) / (kf.P + kf.Q + kf.R)) * (z - kf.x))
        ((1 - (kf.P + kf.Q) / (kf.P + kf.Q + kf.R)) * (kf.P + kf.Q))) := rfl

/-- Single update step preserves positivity of P, keeps Q and R, and
drives the covariance strictly below R. -/
theorem positionErrorKF_update_step (kf : PositionErrorKF) (m : ℚ)
    (hQ : 0 < kf.Q) (hR : 0 < kf.R) (hP : 0 < kf.P) :
    0 < (kf.update m).2.P ∧ (kf.update m).2.P < kf.R ∧
      (kf.update m).2.Q = kf.Q ∧ (kf.update m).2.R = kf.R := by
  have hPpred : 0 < kf.P + kf.Q := by linarith
  have hS : 0 < kf.P + kf.Q + kf.R := by linarith
  have hlt : kf.P + kf.Q < kf.P + kf.Q + kf.R := by linarith
  have hK1 : (kf.P + kf.Q) / (kf.P + kf.Q + kf.R) < 1 := (div_lt_one hS).2 hlt
  have hK0 : 0 < (kf.P + kf.Q) / (kf.P + kf.Q + kf.R) := div_pos hPpred hS
  have hP2 : (kf.update m).2.P =
      (1 - (kf.P + kf.Q) / (kf.P + kf.Q + kf.R)) * (kf.P + kf.Q) := rfl
  refine ⟨?_, ?_, rfl, rfl⟩
  · rw [hP2]
    exact mul_pos (by linarith) hPpred
  · rw [hP2]
    have hrw : (1 - (kf.P + kf.Q) / (kf.P + kf.Q + kf.R)) * (kf.P + kf.Q) =
        kf.R * (kf.P + kf.Q) / (kf.P + kf.Q + kf.R) := by
      field_simp
    rw [hrw, div_lt_iff₀ hS]
    have := mul_lt_mul_of_pos_left hlt hR
    linarith

/-- C10: starting from strictly positive Q, R, P, after processing any
prefix of any measurement sequence the covariance is strictly positive,
the innovation variance of the next update is strictly positive, the
Kalman gain of the next update lies strictly between 0 and 1 (so NIS
and gain never divide by zero), and Q and R are unchanged; moreover
after at least one update the covariance is strictly below R. -/
theorem positionErrorKF_covariance_invariant (kf : PositionErrorKF)
    (hQ : 0 < kf.Q) (hR : 0 < kf.R) (hP : 0 < kf.P) (ms : List ℚ) :
    (∀ pre suf : List ℚ, ms = pre ++ suf →
      0 < (kf.run pre).P ∧ 0 < (kf.run pre).innovVar ∧
        0 < (kf.run pre).gain ∧ (kf.run pre).gain < 1 ∧
        (kf.run pre).Q = kf.Q ∧ (kf.run pre).R = kf.R) ∧
    (ms ≠ [] → (kf.run ms).P < kf.R) := by
  have hrun : ∀ l : List ℚ, ∀ k : PositionErrorKF,
      0 < k.Q → 0 < k.R → 0 < k.P →
      0 < (k.run l).P ∧ (k.run l).Q = k.Q ∧ (k.run l).R = k.R := by
    intro l
    induction l with
    | nil => intro k h1 h2 h3; exact ⟨h3, rfl, rfl⟩
    | cons m rest ih =>
      intro k h1 h2 h3
      have hstep := positionErrorKF_update_step k m h1 h2 h3
      have hQ2 : 0 < (k.update m).2.Q := by rw [hstep.2.2.1]; exact h1
      have hR2 : 0 < (k.update m).2.R := by rw [hstep.2.2.2]; exact h2
      have := ih ((k.update m).2) hQ2 hR2 hstep.1
      refine ⟨this.1, ?_, ?_⟩
      · rw [show (k.run (m :: rest)) = ((k.update m).2).run rest from rfl,
          this.2.1, hstep.2.2.1]
      · rw [show (k.run (m :: rest)) = ((k.update m).2).run rest from rfl,
          this.2.2, hstep.2.2.2]
  constructor
  · intro pre suf hsplit
    have h := hrun pre kf hQ hR hP
    have hQp : 0 < (kf.run pre).Q := by rw [h.2.1]; exact hQ
    have hRp : 0 < (kf.run pre).R := by rw [h.2.2]; exact hR
    have hPp : 0 < (kf.run pre).P := h.1
    have hS : 0 < (kf.run pre).innovVar := by
      unfold PositionErrorKF.innovVar; linarith
    have hPpred : 0 < (kf.run pre).P + (kf.run pre).Q := by linarith
    have hlt : (kf.run pre).P + (kf.run pre).Q < (kf.run pre).innovVar := by
      unfold PositionErrorKF.innovVar; linarith
    refine ⟨hPp, hS, div_pos hPpred hS, (div_lt_one hS).2 hlt, h.2.1, h.2.2⟩
  · intro hne
    rcases List.eq_nil_or_concat ms with h | ⟨front, last, hsplit⟩
    · exact absurd h hne
    · subst hsplit
      rw [List.concat_eq_append]
      have h := hrun front kf hQ hR hP
      have hQp : 0 < (kf.run front).Q := by rw [h.2.1]; exact hQ
      have hRp : 0 < (kf.run front).R := by rw [h.2.2]; exact hR
      have hstep := positionErrorKF_update_step (kf.run front) last hQp hRp h.1
      have hfin : kf.run (front ++ [last]) = ((kf.run front).update last).2 := by
        unfold PositionErrorKF.run
        rw [List.foldl_append]
        rfl
      rw [hfin]
      calc ((kf.run front).update last).2.P < (kf.run front).R := hstep.2.1
        _ = kf.R := h.2.2

/-- Witness for C10 at a concrete filter (the MultilatDetector defaults
Q = 100, R = 250000, initial state 0, initial covariance 1000) and the
one-element measurement sequence [5]. -/
theorem positionErrorKF_covariance_invariant_witness :
    (∀ pre suf : List ℚ, [(5:ℚ)] = pre ++ suf →
      0 < ((PositionErrorKF.mk 100 250000 0 1000).run pre).P ∧
        0 < ((PositionErrorKF.mk 100 250000 0 1000).run pre).innovVar ∧
        0 < ((PositionErrorKF.mk 100 250000 0 1000).run pre).gain ∧
        ((PositionErrorKF.mk 100 250000 0 1000).run pre).gain < 1 ∧
        ((PositionErrorKF.mk 100 250000 0 1000).run pre).Q =
          (PositionErrorKF.mk (100:ℚ) 250000 0 1000).Q ∧
        ((PositionErrorKF.mk 100 250000 0 1000).run pre).R =
          (PositionErrorKF.mk (100:ℚ) 250000 0 1000).R) ∧
    ([(5:ℚ)] ≠ [] →
      ((PositionErrorKF.mk 100 250000 0 1000).run [(5:ℚ)]).P <
        (PositionErrorKF.mk (100:ℚ) 250000 0 1000).R) :=
  positionErrorKF_covariance_invariant (PositionErrorKF.mk 100 250000 0 1000)
    (by norm_num) (by norm_num) (by norm_num) [(5:ℚ)]

/-- Maximum of a numpy array (arr.max()); none on an empty array, where
numpy raises ValueError. -/
def npMax : List ℚ → Option ℚ
  | [] => none
  | x :: xs => some (xs.foldl max x)

/-- Minimum of a numpy array (arr.min()); none on an empty array. -/
def npMin : List ℚ → Option ℚ
  | [] => none
  | x :: xs => some (xs.foldl min x)

/-- Partial sums, np.cumsum: entry k is the sum of the first k+1 input
entries. -/
def cumsum (l : List ℚ) : List ℚ :=
  (List.range l.length).map (fun k => ((l.take (k + 1)).sum))

/-- Trapezoidal integration, np.trapz(y, x): the sum over consecutive
points of (x1 - x0) * (y0 + y1) / 2. -/
def trapz : List ℚ → List ℚ → ℚ
  | y0 :: y1 :: ys, x0 :: x1 :: xs => (x1 - x0) * (y0 + y1) / 2 + trapz (y1 :: ys) (x1 :: xs)
  | _, _ => 0

/-- Descending-by-score comparison used to embed np.argsort(-scores) on
(score, label) pairs.  The embedded sort is stable on ties, matching
numpy insertion sort behaviour on small arrays (numpy quicksort leaves
tie order unspecified in general). -/
def scoreGe (a b : ℚ × Bool) : Prop := b.1 ≤ a.1

instance : DecidableRel scoreGe := fun a b => inferInstanceAs (Decidable (b.1 ≤ a.1))

instance : IsTotal (ℚ × Bool) scoreGe := ⟨fun a b => le_total b.1 a.1⟩

instance : IsTrans (ℚ × Bool) scoreGe := ⟨fun _ _ _ hab hbc => le_trans hbc hab⟩

/-- Embedding of compute_roc_auc (metrics.py lines 74-116).  Input is a
label array y_true and a parallel score array; the result is
(auc, fpr curve, tpr curve, thresholds), or none where the Python code
raises (max of an empty array in the degenerate branch). -/
def compute_roc_auc (y_true : List Bool) (scores : List ℚ) :
    Option (ℚ × List ℚ × List ℚ × List ℚ) :=
  let sortedPairs := List.insertionSort scoreGe (scores.zip y_true)
  let n_pos : ℕ := y_true.countP (fun b => b)
  let n_neg : ℕ := y_true.length - n_pos
  if n_pos = 0 ∨ n_neg = 0 then
    match npMax scores, npMin scores with
    | some mx, some mn => some (1/2, [0, 1], [0, 1], [mx, mn])
    | _, _ => none
  else
    match sortedPairs with
    | [] => none
    | s0 :: _ =>
      let tps := cumsum (sortedPairs.map (fun p => if p.2 then (1:ℚ) else 0))
      let fps := cumsum (sortedPairs.map (fun p => if p.2 then (0:ℚ) else 1))
      let tpr := (0:ℚ) :: tps.map (fun v => v / (n_pos : ℚ))
      let fpr := (0:ℚ) :: fps.map (fun v => v / (n_neg : ℚ))
      let thresholds := (s0.1 + 1) :: sortedPairs.map (fun p => p.1)
      some (trapz tpr fpr, fpr, tpr, thresholds)

/-- Embedding of compute_confusion_at_threshold (metrics.py lines
119-141): counts and rates of the predicate score >= threshold. -/
def compute_confusion_at_threshold (y_true : List Bool) (scores : List ℚ)
    (threshold : ℚ) : ℕ × ℕ × ℕ × ℕ × ℚ × ℚ :=
  let y_pred := scores.map (fun v => decide (threshold ≤ v))
  let pairs := y_true.zip y_pred
  let tp := pairs.countP (fun p => p.1 && p.2)
  let tn := pairs.countP (fun p => !p.1 && !p.2)
  let fp := pairs.countP (fun p => !p.1 && p.2)
  let fn := pairs.countP (fun p => p.1 && !p.2)
  let tpr := if 0 < tp + fn then (tp : ℚ) / ((tp : ℚ) + (fn : ℚ)) else 0
  let fpr := if 0 < fp + tn then (fp : ℚ) / ((fp : ℚ) + (tn : ℚ)) else 0
  (tp, tn, fp, fn, tpr, fpr)

/-- Youden J statistic of the predicate score >= t on the collected
labels: TPR minus FPR as computed by compute_confusion_at_threshold. -/
def youdenJ (y_true : List Bool) (scores : List ℚ) (t : ℚ) : ℚ :=
  (compute_confusion_at_threshold y_true scores t).2.2.2.2.1 -
    (compute_confusion_at_threshold y_true scores t).2.2.2.2.2

/-- First index of the maximum entry, np.argmax; helper carrying the
position of the next element and the best index and value so far. -/
def argmaxAux : List ℚ → ℕ → ℕ → ℚ → ℕ × ℚ
  | [], _, bi, bv => (bi, bv)
  | v :: rest, i, bi, bv => if bv < v then argmaxAux rest (i + 1) i v
      else argmaxAux rest (i + 1) bi bv

/-- np.argmax: index of the first occurrence of the maximum (0 on an
empty array, where numpy raises; never hit by the embedded callers). -/
def argmax : List ℚ → ℕ
  | [] => 0
  | v :: rest => (argmaxAux rest 1 0 v).1

/-- Threshold-selection core of optimize_threshold (optimize.py lines
137-146): compute the ROC curve of the collected labels and scores,
take the positional Youden J array tpr - fpr, and return the threshold
at its argmax. -/
def optimize_threshold_core (labels : List Bool) (scores : List ℚ) : Option ℚ :=
  match compute_roc_auc labels scores with
  | none => none
  | some (_, fpr, tpr, thresholds) =>
    let j_statistic := List.zipWith (fun a b => a - b) tpr fpr
    thresholds.get? (argmax j_statistic)

/-- Embedding of OptimizationResult.find_threshold_for_fpr (optimize.py
lines 44-50): mask the thresholds array by fpr_curve <= target_fpr and
take the first masked entry, falling back to the last array entry when
the mask is empty.  A none result models an index error on an empty
array. -/
def find_threshold_for_fpr (fpr_curve thresholds : List ℚ) (target_fpr : ℚ) :
    Option ℚ :=
  if fpr_curve.all (fun v => decide (¬ v ≤ target_fpr)) then thresholds.getLast?
  else (((thresholds.zip fpr_curve).filter (fun p => decide (p.2 ≤ target_fpr))).map
    (fun p => p.1)).head?

/-- Embedding of OptimizationResult.find_threshold_for_tpr (optimize.py
lines 52-58): mask the thresholds array by tpr_curve >= target_tpr and
take the last masked entry, falling back to the first array entry when
the mask is empty. -/
def find_threshold_for_tpr (tpr_curve thresholds : List ℚ) (target_tpr : ℚ) :
    Option ℚ :=
  if tpr_curve.all (fun v => decide (¬ target_tpr ≤ v)) then thresholds.head?
  else (((thresholds.zip tpr_curve).filter (fun p => decide (target_tpr ≤ p.2))).map
    (fun p => p.1)).getLast?

/-- Embedding of compute_time_to_detection (metrics.py lines 144-179):
time of the first true positive minus the time of the first
ground-truth-positive event; none when either does not exist. -/
def compute_time_to_detection (times : List ℚ) (y_true : List Bool)
    (scores : List ℚ) (threshold : ℚ) : Option ℚ :=
  match ((List.range y_true.length).filter (fun i => y_true.getD i false)).head? with
  | none => none
  | some i0 =>
    match ((List.range y_true.length).filter
        (fun i => y_true.getD i false &&
          (scores.map (fun v => decide (threshold ≤ v))).getD i false)).head? with
    | none => none
    | some j0 => some (times.getD j0 0 - times.getD i0 0)

/-- C1 (code bug evidence).  On the training collection with labels
[true, false] and scores [2, 1] the stored ROC grid is
thresholds = [3, 2, 1] with fpr_curve = [0, 0, 1] and
tpr_curve = [0, 1, 1].  find_threshold_for_fpr 0 returns 3, although 2
is a grid threshold with FPR 0 <= 0 and 2 < 3, so the returned value is
not the lowest threshold achieving the target FPR (the code returns
the first entry of the descending thresholds array, which is always
the sentinel max score + 1 for any nonnegative target).  Dually,
find_threshold_for_tpr 1 returns 1 although grid threshold 2 achieves
TPR 1 >= 1 and 2 > 1, so the returned value is not the highest
threshold achieving the target TPR.  The inline comments of the source
(thresholds[-1] labeled as the highest threshold, thresholds[0] as the
lowest) contradict the actual descending orientation of the array. -/
theorem find_threshold_operating_point_code_bug :
    compute_roc_auc [true, false] [2, 1] =
      some (1, [0, 0, 1], [0, 1, 1], [3, 2, 1]) ∧
    find_threshold_for_fpr [0, 0, 1] [3, 2, 1] 0 = some 3 ∧
    (∃ p ∈ (([3, 2, 1] : List ℚ).zip ([0, 0, 1] : List ℚ)),
      p.2 ≤ 0 ∧ p.1 < 3) ∧
    find_threshold_for_tpr [0, 1, 1] [3, 2, 1] 1 = some 1 ∧
    (∃ p ∈ (([3, 2, 1] : List ℚ).zip ([0, 1, 1] : List ℚ)),
      1 ≤ p.2 ∧ 1 < p.1) := by
  refine ⟨?_, ?_, ⟨(2, 0), by norm_num⟩, ?_, ⟨(2, 1), by norm_num⟩⟩
  · norm_num [compute_roc_auc, cumsum, trapz, scoreGe, List.range_succ]
  · norm_num [find_threshold_for_fpr]
  · norm_num [find_threshold_for_tpr]

/-- C6 counterexample: the empty label array is vacuously all-positive,
yet compute_roc_auc on empty inputs fails (the degenerate branch takes
the maximum of the empty score array, on which numpy raises
ValueError) instead of returning AUC 0.5 with a two-point curve. -/
theorem roc_auc_empty_counterexample :
    (∀ b ∈ ([] : List Bool), b = true) ∧ compute_roc_auc [] [] = none :=
  ⟨by simp, rfl⟩

/-- C6 (amended): for every nonempty all-positive or all-negative label
array with a parallel score array, compute_roc_auc returns AUC = 1/2
together with the two-point curve fpr = tpr = [0, 1], without
failing. -/
theorem roc_auc_degenerate_returns_half (y : List Bool) (s : List ℚ)
    (hy : y ≠ []) (hlen : s.length = y.length)
    (hdeg : (∀ b ∈ y, b = true) ∨ (∀ b ∈ y, b = false)) :
    ∃ mx mn, compute_roc_auc y s = some (1/2, [0, 1], [0, 1], [mx, mn]) := by
  have hcond : y.countP (fun b => b) = 0 ∨ y.length - y.countP (fun b => b) = 0 := by
    rcases hdeg with h | h
    · right
      have hc : y.countP (fun b => b) = y.length :=
        List.countP_eq_length.2 (fun b hb => by simp [h b hb])
      omega
    · left
      refine List.countP_eq_zero.2 (fun b hb => ?_)
      simp [h b hb]
  have hs : s ≠ [] := by
    intro hnil
    apply hy
    rw [hnil] at hlen
    exact List.length_eq_zero.1 hlen.symm
  obtain ⟨x, xs, hxe⟩ := List.exists_cons_of_ne_nil hs
  refine ⟨xs.foldl max x, xs.foldl min x, ?_⟩
  subst hxe
  simp only [compute_roc_auc, npMax, npMin]
  rw [if_pos hcond]

/-- Witness for the amended C6 at the concrete all-positive collection
y = [true, true], s = [4, 7]. -/
theorem roc_auc_degenerate_returns_half_witness :
    ∃ mx mn, compute_roc_auc [true, true] [4, 7] =
      some (1/2, [0, 1], [0, 1], [mx, mn]) :=
  roc_auc_degenerate_returns_half [true, true] [4, 7] (by decide) (by decide)
    (Or.inl (by decide))

/-- C5 counterexample: with labels [true, true, false] and tied scores
[3, 1, 1] the ROC grid is [4, 3, 1, 1] and optimize_threshold returns
best threshold 1, whose Youden J statistic under the predicate
score >= t is 0; but grid threshold 3 has J = 1/2 > 0, so the returned
threshold does not maximize TPR - FPR of the predicate score >= t over
the threshold grid.  (With tied scores the positional J values of the
cumulative ROC walk do not all correspond to achievable operating
points.) -/
theorem optimize_threshold_tied_scores_counterexample :
    optimize_threshold_core [true, true, false] [3, 1, 1] = some 1 ∧
    compute_roc_auc [true, true, false] [3, 1, 1] =
      some (1, [0, 0, 0, 1], [0, 1/2, 1, 1], [4, 3, 1, 1]) ∧
    youdenJ [true, true, false] [3, 1, 1] 1 = 0 ∧
    youdenJ [true, true, false] [3, 1, 1] 3 = 1/2 ∧
    (3 : ℚ) ∈ ([4, 3, 1, 1] : List ℚ) := by
  refine ⟨?_, ?_, ?_, ?_, by norm_num⟩
  · norm_num [optimize_threshold_core, compute_roc_auc, cumsum, trapz, scoreGe,
      List.range_succ, argmax, argmaxAux]
  · norm_num [compute_roc_auc, cumsum, trapz, scoreGe, List.range_succ]
  · norm_num [youdenJ, compute_confusion_at_threshold]
  · norm_num [youdenJ, compute_confusion_at_threshold]

/-- Characterization of the first index of a filtered index range:
head? of (range' s n).filter p is some i exactly when i is in the range
window, satisfies p, and no smaller in-window index does. -/
theorem filter_range'_head_eq_some (p : ℕ → Bool) :
    ∀ (n s i : ℕ), (((List.range' s n).filter p).head? = some i ↔
      (s ≤ i ∧ i < s + n ∧ p i = true ∧ ∀ k, s ≤ k → k < i → p k = false)) := by
  intro n
  induction n with
  | zero =>
    intro s i
    simp only [List.range'_zero, List.filter_nil, List.head?_nil]
    constructor
    · intro h; cases h
    · rintro ⟨h1, h2, _, _⟩; omega
  | succ m ih =>
    intro s i
    rw [List.range'_succ]
    by_cases hp : p s
    · rw [List.filter_cons_of_pos hp]
      simp only [List.head?_cons, Option.some.injEq]
      constructor
      · rintro rfl
        exact ⟨le_refl s, by omega, hp, fun k hk1 hk2 => by omega⟩
      · rintro ⟨h1, _, h3, h4⟩
        by_contra hne
        have hlt : s < i := lt_of_le_of_ne h1 hne
        have := h4 s (le_refl s) hlt
        rw [hp] at this
        cases this
    · rw [List.filter_cons_of_neg (by simpa using hp)]
      rw [ih (s + 1) i]
      constructor
      · rintro ⟨h1, h2, h3, h4⟩
        refine ⟨by omega, by omega, h3, fun k hk1 hk2 => ?_⟩
        by_cases hks : k = s
        · subst hks; simpa using hp
        · exact h4 k (by omega) hk2
      · rintro ⟨h1, h2, h3, h4⟩
        have hsi : s ≠ i := by
          intro h
          subst h
          rw [h3] at hp
          exact hp rfl
        refine ⟨by omega, by omega, h3, fun k hk1 hk2 => h4 k (by omega) hk2⟩

/-- head? of (range n).filter p is none exactly when p holds nowhere
below n. -/
theorem filter_range_head_eq_none (p : ℕ → Bool) (n : ℕ) :
    ((List.range n).filter p).head? = none ↔ ∀ k < n, p k = false := by
  rw [List.head?_eq_none_iff, List.filter_eq_nil_iff]
  constructor
  · intro h k hk
    have := h k (List.mem_range.2 hk)
    simpa using this
  · intro h a ha
    rw [h a (List.mem_range.1 ha)]
    exact fun hc => by cases hc

/-- Specialization of filter_range'_head_eq_some to range n. -/
theorem filter_range_head_eq_some (p : ℕ → Bool) (n i : ℕ) :
    (((List.range n).filter p).head? = some i ↔
      (i < n ∧ p i = true ∧ ∀ k < i, p k = false)) := by
  rw [List.range_eq_range', filter_range'_head_eq_some p n 0 i]
  constructor
  · rintro ⟨_, h2, h3, h4⟩
    exact ⟨by omega, h3, fun k hk => h4 k (by omega) hk⟩
  · rintro ⟨h1, h2, h3⟩
    exact ⟨by omega, by omega, h2, fun k _ hk => h3 k hk⟩

/-- A first index satisfying a property is unique. -/
theorem first_index_unique {P : ℕ → Prop} {i j : ℕ}
    (hi : P i) (hni : ∀ k < i, ¬ P k) (hj : P j) (hnj : ∀ k < j, ¬ P k) :
    i = j := by
  rcases lt_trichotomy i j with h | h | h
  · exact absurd hi (hnj i h)
  · exact h
  · exact absurd hj (hni j h)

/-- The index i is the first ground-truth-positive event of the label
array y. -/
def isFirstSpoofedIdx (y : List Bool) (i : ℕ) : Prop :=
  i < y.length ∧ y.getD i false = true ∧ ∀ k < i, y.getD k false = false

/-- The index j is the first true positive: the first event that is
ground-truth positive and has score at or above the threshold. -/
def isFirstTruePositiveIdx (y : List Bool) (scores : List ℚ) (threshold : ℚ)
    (j : ℕ) : Prop :=
  j < y.length ∧ (y.getD j false = true ∧ threshold ≤ scores.getD j 0) ∧
    ∀ k < j, ¬(y.getD k false = true ∧ threshold ≤ scores.getD k 0)

/-- C9: compute_time_to_detection returns the time of the first true
positive (label true and score >= threshold) minus the time of the
first ground-truth-positive event, and returns none exactly when there
is no ground-truth-positive event or no true positive at all. -/
theorem compute_ttd_first_tp_minus_first_positive (times : List ℚ)
    (y : List Bool) (scores : List ℚ) (threshold v : ℚ)
    (hts : times.length = y.length) (hsc : scores.length = y.length) :
    (compute_time_to_detection times y scores threshold = some v ↔
      ∃ i j, isFirstSpoofedIdx y i ∧
        isFirstTruePositiveIdx y scores threshold j ∧
        v = times.getD j 0 - times.getD i 0) ∧
    (compute_time_to_detection times y scores threshold = none ↔
      ((∀ k < y.length, y.getD k false = false) ∨
        (∀ k < y.length, ¬(y.getD k false = true ∧ threshold ≤ scores.getD k 0)))) := by
  have hmap : ∀ k, k < y.length →
      ((scores.map (fun w => decide (threshold ≤ w))).getD k false =
        decide (threshold ≤ scores.getD k 0)) := by
    intro k hk
    have hk2 : k < scores.length := by omega
    rw [List.getD_eq_getElem scores 0 hk2,
      List.getD_eq_getElem _ false (by simpa using hk2), List.getElem_map]
  have hp2 : ∀ k, k < y.length →
      ((y.getD k false &&
          (scores.map (fun w => decide (threshold ≤ w))).getD k false) = true ↔
        (y.getD k false = true ∧ threshold ≤ scores.getD k 0)) := by
    intro k hk
    rw [Bool.and_eq_true, hmap k hk]
    simp
  rcases hsp : ((List.range y.length).filter (fun i => y.getD i false)).head?
    with _ | i0
  · have hall := (filter_range_head_eq_none _ _).1 hsp
    have hval : compute_time_to_detection times y scores threshold = none := by
      unfold compute_time_to_detection
      rw [hsp]
    constructor
    · rw [hval]
      constructor
      · intro h; cases h
      · rintro ⟨i, j, hi, _, _⟩
        have hcontra := hall i hi.1
        rw [hi.2.1] at hcontra
        cases hcontra
    · rw [hval]
      exact iff_of_true rfl (Or.inl hall)
  · have hi0 := (filter_range_head_eq_some _ _ _).1 hsp
    rcases htp : ((List.range y.length).filter
        (fun i => y.getD i false &&
          (scores.map (fun w => decide (threshold ≤ w))).getD i false)).head?
      with _ | j0
    · have halltp := (filter_range_head_eq_none _ _).1 htp
      have hval : compute_time_to_detection times y scores threshold = none := by
        unfold compute_time_to_detection
        rw [hsp, htp]
      constructor
      · rw [hval]
        constructor
        · intro h; cases h
        · rintro ⟨i, j, _, hj, _⟩
          have h1 := (hp2 j hj.1).2 hj.2.1
          rw [halltp j hj.1] at h1
          cases h1
      · rw [hval]
        refine iff_of_true rfl (Or.inr (fun k hk hc => ?_))
        have h1 := (hp2 k hk).2 hc
        rw [halltp k hk] at h1
        cases h1
    · have hj0 := (filter_range_head_eq_some _ _ _).1 htp
      have hval : compute_time_to_detection times y scores threshold =
          some (times.getD j0 0 - times.getD i0 0) := by
        unfold compute_time_to_detection
        rw [hsp, htp]
      have hiF : isFirstSpoofedIdx y i0 := ⟨hi0.1, hi0.2.1, hi0.2.2⟩
      have hjF : isFirstTruePositiveIdx y scores threshold j0 := by
        refine ⟨hj0.1, (hp2 j0 hj0.1).1 hj0.2.1, fun k hk hc => ?_⟩
        have hkn : k < y.length := lt_trans hk hj0.1
        have h1 := (hp2 k hkn).2 hc
        rw [hj0.2.2 k hk] at h1
        cases h1
      constructor
      · rw [hval]
        constructor
        · intro h
          injection h with h
          exact ⟨i0, j0, hiF, hjF, h.symm⟩
        · rintro ⟨i, j, hi, hj, hv⟩
          have hii : i = i0 := by
            refine first_index_unique (P := fun k => y.getD k false = true)
              hi.2.1 (fun k hk => ?_) hiF.2.1 (fun k hk => ?_)
            · show ¬ y.getD k false = true
              intro hc
              rw [hi.2.2 k hk] at hc
              cases hc
            · show ¬ y.getD k false = true
              intro hc
              rw [hiF.2.2 k hk] at hc
              cases hc
          have hjj : j = j0 :=
            first_index_unique
              (P := fun k => y.getD k false = true ∧ threshold ≤ scores.getD k 0)
              hj.2.1 hj.2.2 hjF.2.1 hjF.2.2
          rw [hv, hii, hjj]
      · rw [hval]
        constructor
        · intro h; cases h
        · rintro (hL | hR)
          · have hcontra := hL i0 hi0.1
            rw [hi0.2.1] at hcontra
            cases hcontra
          · exact absurd ((hp2 j0 hj0.1).1 hj0.2.1) (hR j0 hj0.1)

/-- Witness for C9: one spoofed event at t = 10 (the first positive)
whose first correct flagging happens at t = 12 yields
time-to-detection 2.0. -/
theorem compute_ttd_first_tp_minus_first_positive_witness :
    (compute_time_to_detection [10, 12] [true, true] [0, 5] 1 = some 2 ↔
      ∃ i j, isFirstSpoofedIdx [true, true] i ∧
        isFirstTruePositiveIdx [true, true] [0, 5] 1 j ∧
        (2 : ℚ) = ([10, 12] : List ℚ).getD j 0 - ([10, 12] : List ℚ).getD i 0) ∧
    (compute_time_to_detection [10, 12] [true, true] [0, 5] 1 = none ↔
      ((∀ k < ([true, true] : List Bool).length,
          ([true, true] : List Bool).getD k false = false) ∨
        (∀ k < ([true, true] : List Bool).length,
          ¬(([true, true] : List Bool).getD k false = true ∧
            (1 : ℚ) ≤ ([0, 5] : List ℚ).getD k 0)))) :=
  compute_ttd_first_tp_minus_first_positive [10, 12] [true, true] [0, 5] 1 2
    (by decide) (by decide)

/-- Event store of one scenario (class ScenarioData of
src/evaluations/data.py): parallel column arrays of the RX events plus
the designated federate receiver identifiers.  Host identifiers and
serial numbers are numeric values of the source table. -/
structure ScenarioData where
  scenario_id : String
  time : List ℚ
  host_id : List ℚ
  host_type : List String
  serial_number : List ℚ
  rid_timestamp : List ℤ
  is_spoofed : List Bool
  rx_pos : List (ℚ × ℚ × ℚ)
  rid_pos : List (ℚ × ℚ × ℚ)
  rssi : List ℚ
  kf_nis : List (Option ℚ)
  federate_host_ids : List ℚ

/-- Number of RX events (ScenarioData.n_events). -/
def ScenarioData.nEvents (s : ScenarioData) : ℕ := s.time.length

/-- Transmission key of event i: the pair (serial_number, rid_timestamp)
uniquely identifying one transmission. -/
def txKey (s : ScenarioData) (i : ℕ) : ℚ × ℤ :=
  (s.serial_number.getD i 0, s.rid_timestamp.getD i 0)

/-- Event indices belonging to the transmission with the given key, in
ascending index order (the defaultdict grouping loop of
MultilatDetector.score appends indices in that order). -/
def txIndices (s : ScenarioData) (key : ℚ × ℤ) : List ℕ :=
  (List.range s.nEvents).filter (fun i => decide (txKey s i = key))

/-- Restriction of a transmission to federate receivers (the
federate_indices list comprehension of MultilatDetector.score). -/
def federateFilter (s : ScenarioData) (idxs : List ℕ) : List ℕ :=
  idxs.filter (fun i => decide (s.host_id.getD i 0 ∈ s.federate_host_ids))

/-- First-occurrence deduplication: the key order a Python dict gives to
the grouped transmission keys. -/
def dedupFirst {α : Type} [DecidableEq α] (l : List α) : List α :=
  l.foldl (fun acc x => if x ∈ acc then acc else acc ++ [x]) []

/-- Comparison by rid_timestamp used to sort the unique transmission
keys (sorted with key = x[1]; the embedded insertion sort is stable,
as Python sorted is). -/
def ridTsLe (a b : ℚ × ℤ) : Prop := a.2 ≤ b.2

instance : DecidableRel ridTsLe := fun a b => inferInstanceAs (Decidable (a.2 ≤ b.2))

instance : IsTotal (ℚ × ℤ) ridTsLe := ⟨fun a b => le_total a.2 b.2⟩

instance : IsTrans (ℚ × ℤ) ridTsLe := ⟨fun _ _ _ hab hbc => le_trans hab hbc⟩

/-- Unique transmission keys in ascending rid_timestamp order, ties in
first-occurrence order. -/
def sortedTransmissionKeys (s : ScenarioData) : List (ℚ × ℤ) :=
  List.insertionSort ridTsLe (dedupFirst ((List.range s.nEvents).map (txKey s)))

/-- Lookup in the per-transmitter filter dictionary keyed by serial
number. -/
def kfLookup (m : List (ℚ × PositionErrorKF)) (sn : ℚ) : Option PositionErrorKF :=
  match m.find? (fun e => decide (e.1 = sn)) with
  | some e => some e.2
  | none => none

/-- Insert-or-replace in the per-transmitter filter dictionary (Python
dict assignment semantics). -/
def kfInsert (m : List (ℚ × PositionErrorKF)) (sn : ℚ) (kf : PositionErrorKF) :
    List (ℚ × PositionErrorKF) :=
  match m with
  | [] => [(sn, kf)]
  | e :: rest => if e.1 = sn then (sn, kf) :: rest else e :: kfInsert rest sn kf

/-- Parameters of MultilatDetector (detectors.py lines 147-188), with
the source defaults. -/
structure MultilatDetector where
  path_loss_exp : ℚ := 2
  min_federates : ℕ := 4
  kf_process_noise : ℚ := 100
  kf_measurement_noise : ℚ := 250000
  use_filtered_error : Bool := true

/-- Type of the bounded trust-region least-squares solve performed by
scipy inside _multilaterate_with_tx_power: given federate receiver
positions, their RSSI values and the initial (claimed) position guess,
it returns the estimated position and transmit power, or none on
failure or non-convergence.  The numerical routine is external to the
repository, so the embedding treats it as an opaque parameter and every
theorem quantifies over it. -/
def MlatSolver : Type :=
  List (ℚ × ℚ × ℚ) → List ℚ → (ℚ × ℚ × ℚ) → Option ((ℚ × ℚ × ℚ) × ℚ)

/-- Type of the Euclidean distance np.linalg.norm(a - b), which is
irrational over the rationals and therefore also an opaque parameter
quantified over by the theorems. -/
def Dist3 : Type := (ℚ × ℚ × ℚ) → (ℚ × ℚ × ℚ) → ℚ

/-- Embedding of _multilaterate_with_tx_power: the guard n < 4 returns
no estimate before the solver is invoked; otherwise the opaque solver
decides the outcome. -/
def multilaterate (solve : MlatSolver) (receivers : List (ℚ × ℚ × ℚ))
    (rssi_values : List ℚ) (initial_pos : ℚ × ℚ × ℚ) :
    Option ((ℚ × ℚ × ℚ) × ℚ) :=
  if rssi_values.length < 4 then none
  else solve receivers rssi_values initial_pos

/-- Update of the scores array: scores[i] = value for every index i of
the transmission (the broadcast loop of MultilatDetector.score). -/
def writeScores (scores : List ℚ) (idxs : List ℕ) (value : ℚ) : List ℚ :=
  idxs.foldl (fun sc i => sc.set i value) scores

/-- The get-or-create of the per-transmitter filter followed by its
update on the raw error: returns (detection score value, updated
filter), the score value being the filtered error or the NIS according
to use_filtered_error. -/
def txUpdate (d : MultilatDetector) (existing : Option PositionErrorKF)
    (raw_error : ℚ) : ℚ × PositionErrorKF :=
  ((if d.use_filtered_error
      then (((existing.getD
        (PositionErrorKF.init d.kf_process_noise d.kf_measurement_noise)).update
          raw_error).1.2.1)
      else (((existing.getD
        (PositionErrorKF.init d.kf_process_noise d.kf_measurement_noise)).update
          raw_error).1.1)),
   ((existing.getD
      (PositionErrorKF.init d.kf_process_noise d.kf_measurement_noise)).update
        raw_error).2)

/-- One iteration of the transmission loop of MultilatDetector.score:
state is (per-transmitter filter dictionary, scores array). -/
def stepTx (d : MultilatDetector) (solve : MlatSolver) (dist3 : Dist3)
    (s : ScenarioData) (st : List (ℚ × PositionErrorKF) × List ℚ)
    (key : ℚ × ℤ) : List (ℚ × PositionErrorKF) × List ℚ :=
  if (federateFilter s (txIndices s key)).length < d.min_federates then st
  else
    match multilaterate solve
        ((federateFilter s (txIndices s key)).map (fun i => s.rx_pos.getD i (0, 0, 0)))
        ((federateFilter s (txIndices s key)).map (fun i => s.rssi.getD i 0))
        (s.rid_pos.getD ((federateFilter s (txIndices s key)).headD 0) (0, 0, 0)) with
    | none => st
    | some (estimated_pos, _) =>
      (kfInsert st.1 key.1
        (txUpdate d (kfLookup st.1 key.1)
          (dist3 estimated_pos
            (s.rid_pos.getD ((federateFilter s (txIndices s key)).headD 0) (0, 0, 0)))).2,
       writeScores st.2 (txIndices s key)
        (txUpdate d (kfLookup st.1 key.1)
          (dist3 estimated_pos
            (s.rid_pos.getD ((federateFilter s (txIndices s key)).headD 0) (0, 0, 0)))).1)

/-- Embedding of MultilatDetector.score (detectors.py lines 190-262):
scores start at zero; transmissions are processed in ascending
rid_timestamp order; each scored transmission broadcasts one value to
all its event indices. -/
def MultilatDetector.score (d : MultilatDetector) (solve : MlatSolver)
    (dist3 : Dist3) (s : ScenarioData) : List ℚ :=
  ((sortedTransmissionKeys s).foldl (stepTx d solve dist3 s)
    ([], List.replicate s.nEvents 0)).2

/-- writeScores preserves the length of the scores array. -/
theorem writeScores_length (idxs : List ℕ) (sc : List ℚ) (v : ℚ) :
    (writeScores sc idxs v).length = sc.length := by
  induction idxs generalizing sc with
  | nil => rfl
  | cons i rest ih =>
    show (writeScores (sc.set i v) rest v).length = sc.length
    rw [ih, List.length_set]

/-- Pointwise description of writeScores: an index of the written list
reads the value, every other index is untouched. -/
theorem writeScores_getD (idxs : List ℕ) (sc : List ℚ) (v : ℚ) (j : ℕ) :
    (writeScores sc idxs v).getD j 0 =
      if j ∈ idxs ∧ j < sc.length then v else sc.getD j 0 := by
  induction idxs generalizing sc with
  | nil => simp [writeScores]
  | cons i rest ih =>
    have hstep : writeScores sc (i :: rest) v = writeScores (sc.set i v) rest v := rfl
    rw [hstep, ih]
    by_cases h1 : j ∈ rest ∧ j < sc.length
    · rw [if_pos (by simpa [List.length_set] using h1),
        if_pos ⟨List.mem_cons_of_mem i h1.1, h1.2⟩]
    · rw [if_neg (by simpa [List.length_set] using h1)]
      by_cases h2 : j = i
      · subst h2
        by_cases h3 : j < sc.length
        · rw [if_pos ⟨List.mem_cons_self j rest, h3⟩,
            List.getD_eq_getElem?_getD, List.getElem?_set_self h3]
          rfl
        · rw [if_neg (fun hc => h3 hc.2), List.set_eq_of_length_le (by omega)]
      · rw [List.getD_eq_getElem?_getD, List.getElem?_set_ne (fun hc => h2 hc.symm),
          ← List.getD_eq_getElem?_getD]
        have hno : ¬(j ∈ i :: rest ∧ j < sc.length) := by
          rintro ⟨hmem, hlen⟩
          rcases List.mem_cons.1 hmem with h | h
          · exact h2 h
          · exact h1 ⟨h, hlen⟩
        rw [if_neg hno]

/-- A property preserved by each fold step holds of the fold result. -/
theorem foldl_preserves {σ κ : Type} (f : σ → κ → σ) (P : σ → Prop)
    (h : ∀ st k, P st → P (f st k)) :
    ∀ (l : List κ) (st : σ), P st → P (l.foldl f st) := by
  intro l
  induction l with
  | nil => intro st hst; exact hst
  | cons k rest ih => intro st hst; exact ih (f st k) (h st k hst)

/-- Membership in txIndices is exactly being an in-range event index of
that transmission. -/
theorem mem_txIndices {s : ScenarioData} {key : ℚ × ℤ} {i : ℕ} :
    i ∈ txIndices s key ↔ i < s.nEvents ∧ txKey s i = key := by
  simp [txIndices, List.mem_filter, List.mem_range]

/-- Every index of the replicate-zero initial scores array reads 0. -/
theorem replicate_zero_getD (n j : ℕ) : (List.replicate n (0:ℚ)).getD j 0 = 0 := by
  rw [List.getD_eq_getElem?_getD, List.getElem?_replicate]
  split <;> rfl

/-- stepTx never changes the length of the scores array. -/
theorem stepTx_length (d : MultilatDetector) (solve : MlatSolver) (dist3 : Dist3)
    (s : ScenarioData) (st : List (ℚ × PositionErrorKF) × List ℚ) (key : ℚ × ℤ) :
    ((stepTx d solve dist3 s st key).2).length = st.2.length := by
  unfold stepTx
  split
  · rfl
  · split
    · rfl
    · exact writeScores_length _ _ _

/-- stepTx leaves the score of every event outside its transmission
untouched. -/
theorem stepTx_getD_not_mem (d : MultilatDetector) (solve : MlatSolver)
    (dist3 : Dist3) (s : ScenarioData) (st : List (ℚ × PositionErrorKF) × List ℚ)
    (key : ℚ × ℤ) (j : ℕ) (hj : j ∉ txIndices s key) :
    ((stepTx d solve dist3 s st key).2).getD j 0 = st.2.getD j 0 := by
  unfold stepTx
  split
  · rfl
  · split
    · rfl
    · dsimp only
      rw [writeScores_getD, if_neg (fun hc => hj hc.1)]

/-- stepTx keeps the scores of two event indices of its own
transmission equal: it either touches neither or writes the same value
to both. -/
theorem stepTx_getD_mem_eq (d : MultilatDetector) (solve : MlatSolver)
    (dist3 : Dist3) (s : ScenarioData) (st : List (ℚ × PositionErrorKF) × List ℚ)
    (key : ℚ × ℤ) {i j : ℕ}
    (hi : i ∈ txIndices s key) (hj : j ∈ txIndices s key)
    (hli : i < st.2.length) (hlj : j < st.2.length)
    (heq : st.2.getD i 0 = st.2.getD j 0) :
    ((stepTx d solve dist3 s st key).2).getD i 0 =
      ((stepTx d solve dist3 s st key).2).getD j 0 := by
  unfold stepTx
  split
  · exact heq
  · split
    · exact heq
    · dsimp only
      rw [writeScores_getD, writeScores_getD, if_pos ⟨hi, hli⟩, if_pos ⟨hj, hlj⟩]

/-- A transmission whose federate reception count is below
min_federates is skipped entirely by stepTx. -/
theorem stepTx_undercovered (d : MultilatDetector) (solve : MlatSolver)
    (dist3 : Dist3) (s : ScenarioData) (st : List (ℚ × PositionErrorKF) × List ℚ)
    (key : ℚ × ℤ)
    (hcount : (federateFilter s (txIndices s key)).length < d.min_federates) :
    stepTx d solve dist3 s st key = st := by
  unfold stepTx
  rw [if_pos hcount]

/-- The scores array returned by MultilatDetector.score has one entry
per RX event. -/
theorem multilat_score_length (d : MultilatDetector) (solve : MlatSolver)
    (dist3 : Dist3) (s : ScenarioData) :
    (d.score solve dist3 s).length = s.nEvents := by
  unfold MultilatDetector.score
  have h := foldl_preserves (stepTx d solve dist3 s)
    (fun st => st.2.length = s.nEvents)
    (fun st k hst => by
      show (stepTx d solve dist3 s st k).2.length = s.nEvents
      rw [stepTx_length]; exact hst)
    (sortedTransmissionKeys s) ([], List.replicate s.nEvents 0)
    (by simp)
  exact h

/-- C2: for every scenario, solver behaviour and distance function, a
transmission whose federate reception count is below min_federates has
score 0 on every one of its RX events (the embedding is a total
function, so no error is raised), regardless of RSSI values. -/
theorem multilat_undercovered_transmission_scores_zero
    (d : MultilatDetector) (solve : MlatSolver) (dist3 : Dist3)
    (s : ScenarioData) (key : ℚ × ℤ)
    (hcount : (federateFilter s (txIndices s key)).length < d.min_federates) :
    ∀ i ∈ txIndices s key, (d.score solve dist3 s).getD i 0 = 0 := by
  unfold MultilatDetector.score
  have h := foldl_preserves (stepTx d solve dist3 s)
    (fun st => ∀ i ∈ txIndices s key, st.2.getD i 0 = 0)
    ?_ (sortedTransmissionKeys s) ([], List.replicate s.nEvents 0) ?_
  · exact h
  · intro st k hst
    show ∀ i ∈ txIndices s key, ((stepTx d solve dist3 s st k).2).getD i 0 = 0
    by_cases hk : k = key
    · subst hk
      rw [stepTx_undercovered d solve dist3 s st k hcount]
      exact hst
    · intro i hi
      rw [stepTx_getD_not_mem]
      · exact hst i hi
      · intro hik
        exact hk (((mem_txIndices.1 hik).2).symm.trans (mem_txIndices.1 hi).2)
  · intro i _
    exact replicate_zero_getD _ _

/-- C3: for every scenario, solver behaviour and distance function, any
two RX events of the same transmission (federate and non-federate
receivers alike) receive the identical score value from
MultilatDetector.score. -/
theorem multilat_same_transmission_same_score
    (d : MultilatDetector) (solve : MlatSolver) (dist3 : Dist3)
    (s : ScenarioData) (i j : ℕ)
    (hi : i < s.nEvents) (hj : j < s.nEvents) (hkey : txKey s i = txKey s j) :
    (d.score solve dist3 s).getD i 0 = (d.score solve dist3 s).getD j 0 := by
  unfold MultilatDetector.score
  have h := foldl_preserves (stepTx d solve dist3 s)
    (fun st => st.2.length = s.nEvents ∧ st.2.getD i 0 = st.2.getD j 0)
    ?_ (sortedTransmissionKeys s) ([], List.replicate s.nEvents 0) ?_
  · exact h.2
  · intro st k hst
    show ((stepTx d solve dist3 s st k).2).length = s.nEvents ∧
      ((stepTx d solve dist3 s st k).2).getD i 0 =
        ((stepTx d solve dist3 s st k).2).getD j 0
    refine ⟨by rw [stepTx_length]; exact hst.1, ?_⟩
    by_cases hik : txKey s i = k
    · exact stepTx_getD_mem_eq d solve dist3 s st k
        (mem_txIndices.2 ⟨hi, hik⟩)
        (mem_txIndices.2 ⟨hj, hkey ▸ hik⟩)
        (by rw [hst.1]; exact hi) (by rw [hst.1]; exact hj) hst.2
    · rw [stepTx_getD_not_mem d solve dist3 s st k i
          (fun hc => hik (mem_txIndices.1 hc).2),
        stepTx_getD_not_mem d solve dist3 s st k j
          (fun hc => hik (hkey.trans (mem_txIndices.1 hc).2))]
      exact hst.2
  · exact ⟨by simp, by rw [replicate_zero_getD, replicate_zero_getD]⟩

/-- Concrete one-event scenario for the C2 witness: the only RX event is
received by host 5, which is not among the four federates, so its
transmission has zero federate receptions. -/
def underScn : ScenarioData :=
  ScenarioData.mk "under" [0] [5] ["benign"] [1] [1000] [false]
    [(0, 0, 0)] [(0, 0, 0)] [0] [none] [1, 2, 3, 4]

/-- Witness for C2: with every solver and the zero distance function,
the under-covered transmission of underScn scores 0 on its event. -/
theorem multilat_undercovered_transmission_scores_zero_witness :
    ((MultilatDetector.mk 2 4 100 250000 true).score
      (fun _ _ _ => none) (fun _ _ => 0) underScn).getD 0 0 = 0 :=
  multilat_undercovered_transmission_scores_zero
    (MultilatDetector.mk 2 4 100 250000 true) (fun _ _ _ => none) (fun _ _ => 0)
    underScn (txKey underScn 0) (by decide) 0
    (mem_txIndices.2 ⟨by decide, rfl⟩)

/-- Concrete two-event scenario for the C3 witness: both RX events
belong to the same transmission (serial 1, rid_timestamp 1000), one
heard by federate host 1 and one by non-federate host 9. -/
def pairScn : ScenarioData :=
  ScenarioData.mk "pair" [0, 0] [1, 9] ["benign", "benign"] [1, 1] [1000, 1000]
    [false, false] [(0, 0, 0), (1, 1, 1)] [(2, 2, 2), (2, 2, 2)] [0, 0]
    [none, none] [1, 2, 3, 4]

/-- Witness for C3: with a solver that always returns an estimate and a
constant distance, the two events of the shared transmission of
pairScn receive equal scores. -/
theorem multilat_same_transmission_same_score_witness :
    ((MultilatDetector.mk 2 4 100 250000 true).score
      (fun _ _ _ => some ((0, 0, 0), 0)) (fun _ _ => 7) pairScn).getD 0 0 =
    ((MultilatDetector.mk 2 4 100 250000 true).score
      (fun _ _ _ => some ((0, 0, 0), 0)) (fun _ _ => 7) pairScn).getD 1 0 :=
  multilat_same_transmission_same_score
    (MultilatDetector.mk 2 4 100 250000 true)
    (fun _ _ _ => some ((0, 0, 0), 0)) (fun _ _ => 7) pairScn 0 1
    (by decide) (by decide) (by decide)

/-- One table cell of the scenario CSV: a string, a numeric value, or a
missing value (NaN). -/
inductive Cell where
  | str (v : String)
  | num (v : ℚ)
  | nan
deriving DecidableEq

/-- A pandas DataFrame as read from one scenario CSV: named columns of
cells. -/
abbrev DataFrame : Type := List (String × List Cell)

/-- Names of the columns of a DataFrame. -/
def colNames (df : DataFrame) : List String := df.map (fun c => c.1)

/-- Column access df[name]: ok with the column, or the KeyError pandas
raises when the column is absent. -/
def getCol (df : DataFrame) (name : String) : Except String (List Cell) :=
  match df.find? (fun c => c.1 == name) with
  | some c => Except.ok c.2
  | none => Except.error name

/-- Row selection by boolean mask applied to one column. -/
def applyMask (mask : List Bool) (col : List Cell) : List Cell :=
  ((mask.zip col).filter (fun p => p.1)).map (fun p => p.2)

/-- Row selection df[mask] applied to a whole DataFrame. -/
def filterRows (df : DataFrame) (mask : List Bool) : DataFrame :=
  df.map (fun c => (c.1, applyMask mask c.2))

/-- Numeric reading of a cell (raw value of a numeric column). -/
def Cell.toQ : Cell → ℚ
  | .num v => v
  | _ => 0

/-- String reading of a cell. -/
def Cell.toStr : Cell → String
  | .str v => v
  | _ => ""

/-- Truthiness of a cell under .astype(bool): nonzero numbers and
nonempty strings are true; NaN is truthy in numpy. -/
def Cell.toBool : Cell → Bool
  | .num v => decide (v ≠ 0)
  | .str v => decide (v ≠ "")
  | .nan => true

/-- Optional numeric reading, keeping NaN as none (the kf_nis column
may hold NaN where the filter was not yet initialized). -/
def Cell.toOptQ : Cell → Option ℚ
  | .num v => some v
  | _ => none

/-- Embedding of df[df["host_type"] == "benign"]["host_id"].unique():
the host_id cells of benign-labeled rows of the FULL table, first
occurrences only. -/
def benignCells (host_type host_id : List Cell) : List Cell :=
  dedupFirst (((host_id.zip host_type).filter
    (fun p => p.2 == Cell.str "benign")).map (fun p => p.1))

/-- The benign host identifiers of the full table as numeric values. -/
def benignIdValues (host_type host_id : List Cell) : List ℚ :=
  (benignCells host_type host_id).map Cell.toQ

/-- Embedding of np.sort(benign_hosts)[:num_federates] (data.py line
74): ascending sort of the distinct benign host identifiers, keeping
the first num_federates. -/
def federateIds (host_type host_id : List Cell) (num_federates : ℕ) : List ℚ :=
  (List.insertionSort (fun a b : ℚ => a ≤ b)
    (benignIdValues host_type host_id)).take num_federates

/-- Embedding of load_scenario (data.py lines 57-95).  Federates are
computed from the full table before the event_type == RX row filter;
each required column access fails with the pandas KeyError when the
column is absent; the optional kf_nis column falls back to an all-NaN
column.  The astype(int) conversion of rid_timestamp truncates toward
zero in Python and is modeled by the floor, equal on the nonnegative
timestamps of the data.  A headerless CSV read by pandas turns the
first data row into column names, so its required columns are absent
under this model as well. -/
def load_scenario (df : DataFrame) (scenario_id : String) (num_federates : ℕ) :
    Except String ScenarioData := do
  let host_type_full ← getCol df "host_type"
  let host_id_full ← getCol df "host_id"
  let event_type ← getCol df "event_type"
  let dfr := filterRows df (event_type.map (fun c => c == Cell.str "RX"))
  let time ← getCol dfr "time"
  let host_id ← getCol dfr "host_id"
  let host_type ← getCol dfr "host_type"
  let serial_number ← getCol dfr "serial_number"
  let rid_timestamp ← getCol dfr "rid_timestamp"
  let is_spoofed ← getCol dfr "is_spoofed"
  let pos_x ← getCol dfr "pos_x"
  let pos_y ← getCol dfr "pos_y"
  let pos_z ← getCol dfr "pos_z"
  let rid_pos_x ← getCol dfr "rid_pos_x"
  let rid_pos_y ← getCol dfr "rid_pos_y"
  let rid_pos_z ← getCol dfr "rid_pos_z"
  let rssi ← getCol dfr "rssi"
  Except.ok (ScenarioData.mk scenario_id
    (time.map Cell.toQ)
    (host_id.map Cell.toQ)
    (host_type.map Cell.toStr)
    (serial_number.map Cell.toQ)
    (rid_timestamp.map (fun c => Rat.floor c.toQ))
    (is_spoofed.map Cell.toBool)
    ((pos_x.zip (pos_y.zip pos_z)).map (fun p => (p.1.toQ, p.2.1.toQ, p.2.2.toQ)))
    ((rid_pos_x.zip (rid_pos_y.zip rid_pos_z)).map
      (fun p => (p.1.toQ, p.2.1.toQ, p.2.2.toQ)))
    (rssi.map Cell.toQ)
    (match getCol dfr "kf_nis" with
     | Except.ok c => c.map Cell.toOptQ
     | Except.error _ => List.replicate time.length none)
    (federateIds host_type_full host_id_full num_federates))

/-- The columns load_scenario reads unconditionally. -/
def requiredCols : List String :=
  ["host_type", "host_id", "event_type", "time", "serial_number",
   "rid_timestamp", "is_spoofed", "pos_x", "pos_y", "pos_z",
   "rid_pos_x", "rid_pos_y", "rid_pos_z", "rssi"]

/-- A successful column access names an existing column. -/
theorem getCol_ok_mem {df : DataFrame} {name : String} {v : List Cell}
    (h : getCol df name = Except.ok v) : name ∈ colNames df := by
  unfold getCol at h
  rcases hf : df.find? (fun c => c.1 == name) with _ | e
  · rw [hf] at h; cases h
  · have hmem := List.mem_of_find?_eq_some hf
    have hp := List.find?_some hf
    have he : e.1 = name := by simpa using hp
    rw [← he]
    exact List.mem_map.2 ⟨e, hmem, rfl⟩

/-- Row filtering preserves the column names. -/
theorem colNames_filterRows (df : DataFrame) (mask : List Bool) :
    colNames (filterRows df mask) = colNames df := by
  unfold colNames filterRows
  rw [List.map_map]
  rfl

/-- Splitting a successful Except bind. -/
theorem except_bind_ok {ε α β : Type} {e : Except ε α} {f : α → Except ε β}
    {b : β} (h : e >>= f = Except.ok b) :
    ∃ a, e = Except.ok a ∧ f a = Except.ok b := by
  cases e with
  | error err => simp [Bind.bind, Except.bind] at h
  | ok a => exact ⟨a, rfl, by simpa [Bind.bind, Except.bind] using h⟩

/-- A successful load implies presence of every required column and
fixes the federate identifiers to the sorted-smallest benign host
identifiers of the full table. -/
theorem load_scenario_ok_spec (df : DataFrame) (sid : String) (nf : ℕ)
    (sd : ScenarioData) (h : load_scenario df sid nf = Except.ok sd) :
    (∀ c ∈ requiredCols, c ∈ colNames df) ∧
    (∀ ht hi, getCol df "host_type" = Except.ok ht →
      getCol df "host_id" = Except.ok hi →
      sd.federate_host_ids = federateIds ht hi nf) := by
  unfold load_scenario at h
  obtain ⟨htc, h1, h⟩ := except_bind_ok h
  obtain ⟨hic, h2, h⟩ := except_bind_ok h
  obtain ⟨etc2, h3, h⟩ := except_bind_ok h
  obtain ⟨c4, h4, h⟩ := except_bind_ok h
  obtain ⟨c5, h5, h⟩ := except_bind_ok h
  obtain ⟨c6, h6, h⟩ := except_bind_ok h
  obtain ⟨c7, h7, h⟩ := except_bind_ok h
  obtain ⟨c8, h8, h⟩ := except_bind_ok h
  obtain ⟨c9, h9, h⟩ := except_bind_ok h
  obtain ⟨c10, h10, h⟩ := except_bind_ok h
  obtain ⟨c11, h11, h⟩ := except_bind_ok h
  obtain ⟨c12, h12, h⟩ := except_bind_ok h
  obtain ⟨c13, h13, h⟩ := except_bind_ok h
  obtain ⟨c14, h14, h⟩ := except_bind_ok h
  obtain ⟨c15, h15, h⟩ := except_bind_ok h
  obtain ⟨c16, h16, h⟩ := except_bind_ok h
  injection h with h
  constructor
  · have hfmem : ∀ {nm : String} {v : List Cell} {mask : List Bool},
        getCol (filterRows df mask) nm = Except.ok v → nm ∈ colNames df :=
      fun hg => by rw [← colNames_filterRows df _]; exact getCol_ok_mem hg
    intro c hc
    simp only [requiredCols, List.mem_cons, List.not_mem_nil, or_false] at hc
    rcases hc with rfl|rfl|rfl|rfl|rfl|rfl|rfl|rfl|rfl|rfl|rfl|rfl|rfl|rfl
    · exact getCol_ok_mem h1
    · exact getCol_ok_mem h2
    · exact getCol_ok_mem h3
    · exact hfmem h4
    · exact hfmem h7
    · exact hfmem h8
    · exact hfmem h9
    · exact hfmem h10
    · exact hfmem h11
    · exact hfmem h12
    · exact hfmem h13
    · exact hfmem h14
    · exact hfmem h15
    · exact hfmem h16
  · intro ht hi hht hhi
    rw [hht] at h1
    rw [hhi] at h2
    injection h1 with h1
    injection h2 with h2
    subst h1
    subst h2
    rw [← h]

/-- C7: for every input table missing some required column (in
particular a headerless or empty table, whose column names are data
values or absent entirely), load_scenario fails with an error value
that is propagated to the caller: no ScenarioData is produced and the
scenario is not silently skipped. -/
theorem load_scenario_missing_required_column_fails (df : DataFrame)
    (sid : String) (nf : ℕ) (col : String)
    (hreq : col ∈ requiredCols) (hmiss : col ∉ colNames df) :
    (∃ msg, load_scenario df sid nf = Except.error msg) ∧
    (∀ sd, load_scenario df sid nf ≠ Except.ok sd) := by
  rcases hres : load_scenario df sid nf with msg | sd
  · exact ⟨⟨msg, rfl⟩, fun sd hc => Except.noConfusion hc⟩
  · exact absurd ((load_scenario_ok_spec df sid nf sd hres).1 col hreq) hmiss

/-- Witness for C7: the empty table (no columns at all, as pandas
produces for an empty CSV) fails to load. -/
theorem load_scenario_missing_required_column_fails_witness :
    (∃ msg, load_scenario [] "w" 4 = Except.error msg) ∧
    (∀ sd, load_scenario [] "w" 4 ≠ Except.ok sd) :=
  load_scenario_missing_required_column_fails [] "w" 4 "host_type"
    (by decide) (by decide)

/-- Membership is preserved by first-occurrence deduplication. -/
theorem dedupFirst_mem {α : Type} [DecidableEq α] {l : List α} {x : α} :
    x ∈ dedupFirst l ↔ x ∈ l := by
  have key : ∀ (l acc : List α),
      (x ∈ l.foldl (fun acc y => if y ∈ acc then acc else acc ++ [y]) acc ↔
        x ∈ acc ∨ x ∈ l) := by
    intro l
    induction l with
    | nil => intro acc; simp
    | cons y ys ih =>
      intro acc
      show x ∈ ys.foldl _ (if y ∈ acc then acc else acc ++ [y]) ↔
        x ∈ acc ∨ x ∈ y :: ys
      rw [ih]
      by_cases hy : y ∈ acc
      · rw [if_pos hy]
        simp only [List.mem_cons]
        constructor
        · rintro (h | h)
          · exact Or.inl h
          · exact Or.inr (Or.inr h)
        · rintro (h | h | h)
          · exact Or.inl h
          · exact Or.inl (h ▸ hy)
          · exact Or.inr h
      · rw [if_neg hy]
        simp only [List.mem_append, List.mem_singleton, List.mem_cons, or_assoc,
          List.not_mem_nil, false_or]
  unfold dedupFirst
  rw [key l []]
  simp

/-- First-occurrence deduplication yields a list without duplicates. -/
theorem dedupFirst_nodup {α : Type} [DecidableEq α] (l : List α) :
    (dedupFirst l).Nodup := by
  have key : ∀ (l acc : List α), acc.Nodup →
      (l.foldl (fun acc y => if y ∈ acc then acc else acc ++ [y]) acc).Nodup := by
    intro l
    induction l with
    | nil => intro acc h; exact h
    | cons y ys ih =>
      intro acc h
      show (ys.foldl _ (if y ∈ acc then acc else acc ++ [y])).Nodup
      by_cases hy : y ∈ acc
      · rw [if_pos hy]; exact ih acc h
      · rw [if_neg hy]
        refine ih _ ?_
        rw [List.nodup_append]
        exact ⟨h, List.nodup_singleton y,
          fun a ha hb => hy ((List.mem_singleton.1 hb) ▸ ha)⟩
  exact key l [] (List.nodup_nil)

/-- Every benign host cell comes from the host_id column. -/
theorem benignCells_subset (ht hi : List Cell) {c : Cell}
    (h : c ∈ benignCells ht hi) : c ∈ hi := by
  unfold benignCells at h
  rw [dedupFirst_mem] at h
  obtain ⟨p, hp, rfl⟩ := List.mem_map.1 h
  exact (List.of_mem_zip (List.mem_of_mem_filter hp)).1

/-- C8: on every successful load with a numerically typed host_id
column, the federate identifiers are exactly the numerically smallest
num_federates distinct benign host identifiers of the full table
(before RX filtering): they are pairwise distinct benign identifiers,
there are min(num_federates, number of distinct benign hosts) of them,
and every non-federate benign identifier is strictly larger than every
federate; the selection is a deterministic function of the table, so
two loads of the same table agree. -/
theorem load_scenario_federates_are_smallest_benign (df : DataFrame)
    (sid : String) (nf : ℕ) (sd : ScenarioData) (ht hi : List Cell)
    (hht : getCol df "host_type" = Except.ok ht)
    (hhi : getCol df "host_id" = Except.ok hi)
    (hok : load_scenario df sid nf = Except.ok sd)
    (htyped : ∀ c ∈ hi, ∃ q, c = Cell.num q) :
    sd.federate_host_ids.length = min nf (benignIdValues ht hi).length ∧
    (∀ x ∈ sd.federate_host_ids, x ∈ benignIdValues ht hi) ∧
    sd.federate_host_ids.Nodup ∧
    (∀ x ∈ sd.federate_host_ids, ∀ y ∈ benignIdValues ht hi,
      y ∉ sd.federate_host_ids → x < y) ∧
    (∀ sd2, load_scenario df sid nf = Except.ok sd2 →
      sd2.federate_host_ids = sd.federate_host_ids) := by
  have hfed : sd.federate_host_ids = federateIds ht hi nf :=
    (load_scenario_ok_spec df sid nf sd hok).2 ht hi hht hhi
  have hperm : (List.insertionSort (fun a b : ℚ => a ≤ b)
      (benignIdValues ht hi)).Perm (benignIdValues ht hi) :=
    List.perm_insertionSort _ _
  have hsorted : (List.insertionSort (fun a b : ℚ => a ≤ b)
      (benignIdValues ht hi)).Sorted (fun a b : ℚ => a ≤ b) :=
    List.sorted_insertionSort _ _
  have hBnodup : (benignIdValues ht hi).Nodup := by
    unfold benignIdValues
    refine List.Nodup.map_on ?_ (dedupFirst_nodup _)
    intro x hx y hy hxy
    obtain ⟨qx, rfl⟩ := htyped x (benignCells_subset ht hi hx)
    obtain ⟨qy, rfl⟩ := htyped y (benignCells_subset ht hi hy)
    simpa [Cell.toQ] using hxy
  have hSnodup : (List.insertionSort (fun a b : ℚ => a ≤ b)
      (benignIdValues ht hi)).Nodup := hperm.nodup_iff.2 hBnodup
  have hstrict : (List.insertionSort (fun a b : ℚ => a ≤ b)
      (benignIdValues ht hi)).Pairwise (fun a b : ℚ => a < b) :=
    (List.Pairwise.and hsorted hSnodup).imp
      (fun h => lt_of_le_of_ne h.1 h.2)
  have hFS : sd.federate_host_ids =
      (List.insertionSort (fun a b : ℚ => a ≤ b)
        (benignIdValues ht hi)).take nf := by
    rw [hfed]; rfl
  refine ⟨?_, ?_, ?_, ?_, ?_⟩
  · rw [hFS, List.length_take, hperm.length_eq]
  · intro x hx
    rw [hFS] at hx
    exact hperm.mem_iff.1 (List.mem_of_mem_take hx)
  · rw [hFS]
    exact hSnodup.sublist (List.take_sublist nf _)
  · intro x hx y hy hyn
    rw [hFS] at hx hyn
    have hyS : y ∈ List.insertionSort (fun a b : ℚ => a ≤ b)
        (benignIdValues ht hi) := hperm.mem_iff.2 hy
    have hstrict2 : ((List.insertionSort (fun a b : ℚ => a ≤ b)
        (benignIdValues ht hi)).take nf ++
        (List.insertionSort (fun a b : ℚ => a ≤ b)
          (benignIdValues ht hi)).drop nf).Pairwise (fun a b : ℚ => a < b) := by
      rw [List.take_append_drop]
      exact hstrict
    have hyTD : y ∈ (List.insertionSort (fun a b : ℚ => a ≤ b)
        (benignIdValues ht hi)).take nf ++
        (List.insertionSort (fun a b : ℚ => a ≤ b)
          (benignIdValues ht hi)).drop nf := by
      rw [List.take_append_drop]
      exact hyS
    have hyDrop : y ∈ (List.insertionSort (fun a b : ℚ => a ≤ b)
        (benignIdValues ht hi)).drop nf := by
      rcases List.mem_append.1 hyTD with h | h
      · exact absurd h hyn
      · exact h
    exact (List.pairwise_append.1 hstrict2).2.2 x hx y hyDrop
  · intro sd2 h2
    rw [(load_scenario_ok_spec df sid nf sd2 h2).2 ht hi hht hhi, hfed]

/-- Concrete one-row table for the C8 witness: a single RX row received
by benign host 1. -/
def oneRowDf : DataFrame :=
  [("time", [Cell.num 0]), ("event_type", [Cell.str "RX"]), ("host_id", [Cell.num 1]),
   ("host_type", [Cell.str "benign"]), ("serial_number", [Cell.num 1]),
   ("rid_timestamp", [Cell.num 1000]), ("is_spoofed", [Cell.num 0]),
   ("pos_x", [Cell.num 0]), ("pos_y", [Cell.num 0]), ("pos_z", [Cell.num 0]),
   ("rid_pos_x", [Cell.num 0]), ("rid_pos_y", [Cell.num 0]),
   ("rid_pos_z", [Cell.num 0]), ("rssi", [Cell.num (-50)])]

/-- The scenario oneRowDf loads to. -/
def oneRowSd : ScenarioData :=
  ScenarioData.mk "w" [0] [1] ["benign"] [1] [1000] [false]
    [(0, 0, 0)] [(0, 0, 0)] [-50] [none] [1]

/-- Witness for C8 on the concrete one-row table. -/
theorem load_scenario_federates_are_smallest_benign_witness :
    oneRowSd.federate_host_ids.length =
      min 4 (benignIdValues [Cell.str "benign"] [Cell.num 1]).length ∧
    (∀ x ∈ oneRowSd.federate_host_ids,
      x ∈ benignIdValues [Cell.str "benign"] [Cell.num 1]) ∧
    oneRowSd.federate_host_ids.Nodup ∧
    (∀ x ∈ oneRowSd.federate_host_ids,
      ∀ y ∈ benignIdValues [Cell.str "benign"] [Cell.num 1],
        y ∉ oneRowSd.federate_host_ids → x < y) ∧
    (∀ sd2, load_scenario oneRowDf "w" 4 = Except.ok sd2 →
      sd2.federate_host_ids = oneRowSd.federate_host_ids) :=
  load_scenario_federates_are_smallest_benign oneRowDf "w" 4 oneRowSd
    [Cell.str "benign"] [Cell.num 1] rfl rfl rfl
    (fun c hc => by
      rcases List.mem_singleton.1 hc with rfl
      exact ⟨1, rfl⟩)

/-- countP respects pointwise equal predicates. -/
theorem countP_ext {α : Type} {p q : α → Bool} :
    ∀ (l : List α), (∀ a ∈ l, p a = q a) → l.countP p = l.countP q := by
  intro l h
  induction l with
  | nil => rfl
  | cons a t ih =>
    rw [List.countP_cons, List.countP_cons, h a (List.mem_cons_self a t),
      ih (fun b hb => h b (List.mem_cons_of_mem a hb))]

/-- Splitting a count along a second predicate. -/
theorem countP_split {α : Type} (p q : α → Bool) : ∀ (l : List α),
    l.countP (fun a => p a && q a) + l.countP (fun a => p a && !q a) =
      l.countP p := by
  intro l
  induction l with
  | nil => rfl
  | cons a t ih =>
    rw [List.countP_cons, List.countP_cons, List.countP_cons]
    cases hp : p a <;> cases hq : q a <;> simp [hp, hq] <;> omega

/-- Reorienting a true-positive count from the (label, prediction) zip
used by compute_confusion_at_threshold to the (score, label) zip used
by the ROC walk. -/
theorem countP_zip_swap_tp (t : ℚ) : ∀ (s : List ℚ) (y : List Bool),
    (y.zip (s.map (fun v => decide (t ≤ v)))).countP (fun p => p.1 && p.2) =
    (s.zip y).countP (fun p => p.2 && decide (t ≤ p.1)) := by
  intro s
  induction s with
  | nil => intro y; cases y <;> rfl
  | cons v s2 ih =>
    intro y
    cases y with
    | nil => rfl
    | cons b y2 =>
      rw [List.map_cons, List.zip_cons_cons, List.zip_cons_cons,
        List.countP_cons, List.countP_cons, ih y2]

/-- Reorienting a false-positive count, as above. -/
theorem countP_zip_swap_fp (t : ℚ) : ∀ (s : List ℚ) (y : List Bool),
    (y.zip (s.map (fun v => decide (t ≤ v)))).countP (fun p => !p.1 && p.2) =
    (s.zip y).countP (fun p => !p.2 && decide (t ≤ p.1)) := by
  intro s
  induction s with
  | nil => intro y; cases y <;> rfl
  | cons v s2 ih =>
    intro y
    cases y with
    | nil => rfl
    | cons b y2 =>
      rw [List.map_cons, List.zip_cons_cons, List.zip_cons_cons,
        List.countP_cons, List.countP_cons, ih y2]

/-- Counting a predicate of the first component over a zip whose left
list is not longer than the right one. -/
theorem countP_zip_left (q : Bool → Bool) :
    ∀ (y z : List Bool), y.length ≤ z.length →
      (y.zip z).countP (fun p => q p.1) = y.countP q := by
  intro y
  induction y with
  | nil => intro z _; rfl
  | cons b y2 ih =>
    intro z h
    cases z with
    | nil => simp at h
    | cons c z2 =>
      rw [List.zip_cons_cons, List.countP_cons, List.countP_cons,
        ih z2 (by simpa using h)]

/-- The sum of a 0/1 indicator equals the count of the predicate. -/
theorem sum_indicator (f : (ℚ × Bool) → ℚ) (pb : (ℚ × Bool) → Bool)
    (hf : ∀ p, f p = if pb p then (1:ℚ) else 0) :
    ∀ L : List (ℚ × Bool), (L.map f).sum = (L.countP pb : ℚ) := by
  intro L
  induction L with
  | nil => simp
  | cons a t ih =>
    rw [List.map_cons, List.sum_cons, ih, List.countP_cons, hf a]
    by_cases h : pb a = true
    · simp [h]
      ring
    · have h2 : pb a = false := by simpa using h
      simp [h2]

/-- Length of the partial-sums list. -/
theorem cumsum_length (l : List ℚ) : (cumsum l).length = l.length := by
  simp [cumsum]

/-- Entry k of the partial sums is the sum of the first k+1 entries. -/
theorem cumsum_getD (l : List ℚ) (k : ℕ) (hk : k < l.length) :
    (cumsum l).getD k 0 = (l.take (k + 1)).sum := by
  unfold cumsum
  rw [List.getD_eq_getElem _ 0 (by simpa using hk), List.getElem_map,
    List.getElem_range]

/-- Reading a mapped list at an in-range index. -/
theorem getD_map_lt {α β : Type} (f : α → β) (l : List α) (k : ℕ) (d : β)
    (hk : k < l.length) : (l.map f).getD k d = f (l[k]) := by
  rw [List.getD_eq_getElem _ d (by simpa using hk), List.getElem_map]

/-- Behaviour of the np.argmax helper: the result is either the
incoming best pair or an offset position inside the list, its value
dominates the incoming best value and every list entry. -/
theorem argmaxAux_spec (xs : List ℚ) :
    ∀ (i bi : ℕ) (bv : ℚ),
      (argmaxAux xs i bi bv = (bi, bv) ∨
        ∃ k, k < xs.length ∧ argmaxAux xs i bi bv = (i + k, xs.getD k 0)) ∧
      bv ≤ (argmaxAux xs i bi bv).2 ∧
      ∀ k < xs.length, xs.getD k 0 ≤ (argmaxAux xs i bi bv).2 := by
  induction xs with
  | nil =>
    intro i bi bv
    refine ⟨Or.inl rfl, le_refl bv, fun k hk => absurd hk (by simp)⟩
  | cons v rest ih =>
    intro i bi bv
    by_cases hlt : bv < v
    · have hstep : argmaxAux (v :: rest) i bi bv = argmaxAux rest (i + 1) i v := by
        show (if bv < v then argmaxAux rest (i + 1) i v
          else argmaxAux rest (i + 1) bi bv) = argmaxAux rest (i + 1) i v
        rw [if_pos hlt]
      obtain ⟨hpos, hval, hall⟩ := ih (i + 1) i v
      rw [hstep]
      refine ⟨?_, le_trans (le_of_lt hlt) hval, ?_⟩
      · rcases hpos with h | ⟨k, hk, h⟩
        · exact Or.inr ⟨0, by simp, by rw [h]; simp⟩
        · exact Or.inr ⟨k + 1, by simpa using hk,
            by rw [h, List.getD_cons_succ]; congr 1; omega⟩
      · intro k hk
        cases k with
        | zero => exact hval
        | succ k2 =>
          rw [List.getD_cons_succ]
          exact hall k2 (by simpa using hk)
    · have hstep : argmaxAux (v :: rest) i bi bv = argmaxAux rest (i + 1) bi bv := by
        show (if bv < v then argmaxAux rest (i + 1) i v
          else argmaxAux rest (i + 1) bi bv) = argmaxAux rest (i + 1) bi bv
        rw [if_neg hlt]
      obtain ⟨hpos, hval, hall⟩ := ih (i + 1) bi bv
      rw [hstep]
      refine ⟨?_, hval, ?_⟩
      · rcases hpos with h | ⟨k, hk, h⟩
        · exact Or.inl h
        · exact Or.inr ⟨k + 1, by simpa using hk,
            by rw [h, List.getD_cons_succ]; congr 1; omega⟩
      · intro k hk
        cases k with
        | zero => exact le_trans (not_lt.1 hlt) hval
        | succ k2 =>
          rw [List.getD_cons_succ]
          exact hall k2 (by simpa using hk)

/-- np.argmax of a nonempty list points inside the list, at an entry
dominating every entry. -/
theorem argmax_spec (l : List ℚ) (hne : l ≠ []) :
    argmax l < l.length ∧ ∀ k < l.length, l.getD k 0 ≤ l.getD (argmax l) 0 := by
  cases l with
  | nil => exact absurd rfl hne
  | cons v xs =>
    obtain ⟨hpos, hval, hall⟩ := argmaxAux_spec xs 1 0 v
    have hgoal : argmax (v :: xs) = (argmaxAux xs 1 0 v).1 := rfl
    rcases hpos with h | ⟨k, hk, h⟩
    · rw [hgoal, h]
      refine ⟨by simp, fun k hk => ?_⟩
      cases k with
      | zero => exact le_refl v
      | succ k2 =>
        rw [List.getD_cons_succ, List.getD_cons_zero]
        have := hall k2 (by simpa using hk)
        rw [h] at this
        exact this
    · rw [hgoal, h]
      have hread : (v :: xs).getD (1 + k) 0 = xs.getD k 0 := by
        have h1k : 1 + k = k + 1 := by omega
        rw [h1k, List.getD_cons_succ]
      refine ⟨by simp; omega, fun k2 hk2 => ?_⟩
      rw [hread]
      have hxsk : xs.getD k 0 = (argmaxAux xs 1 0 v).2 := by rw [h]
      cases k2 with
      | zero =>
        rw [List.getD_cons_zero, hxsk]
        exact hval
      | succ k3 =>
        rw [List.getD_cons_succ, hxsk]
        exact hall k3 (by simpa using hk2)

/-- In a list sorted by descending score, every entry of the first k
has score at least the score at position k-1. -/
theorem take_score_ge (L : List (ℚ × Bool)) (hsor : L.Pairwise scoreGe)
    (k : ℕ) (hk1 : 1 ≤ k) (hkn : k ≤ L.length) :
    ∀ p ∈ L.take k, (L.getD (k - 1) (0, false)).1 ≤ p.1 := by
  intro p hp
  obtain ⟨i, hi, hpi⟩ := List.mem_iff_getElem.1 hp
  have hik : i < k := by
    rw [List.length_take] at hi
    omega
  have hin : i < L.length := lt_of_lt_of_le hik hkn
  have hgetp : L[i] = p := by
    rw [← hpi]
    exact (List.getElem_take L).symm
  have hk1n : k - 1 < L.length := by omega
  rw [List.getD_eq_getElem L (0, false) hk1n, ← hgetp]
  rcases Nat.lt_or_ge i (k - 1) with h | h
  · exact List.pairwise_iff_getElem.1 hsor i (k - 1) hin hk1n h
  · have hieq : i = k - 1 := by omega
    subst hieq
    exact le_refl _

/-- In a strictly descending list, every entry beyond the first k has
score strictly below the score at position k-1. -/
theorem drop_score_lt (L : List (ℚ × Bool))
    (hstrict : L.Pairwise (fun a b => b.1 < a.1)) (k : ℕ) (hk1 : 1 ≤ k)
    (hkn : k - 1 < L.length) :
    ∀ p ∈ L.drop k, p.1 < (L.getD (k - 1) (0, false)).1 := by
  intro p hp
  obtain ⟨i, hi, hpi⟩ := List.mem_iff_getElem.1 hp
  have hkin : k + i < L.length := by
    have := List.length_drop k L
    omega
  have hdi : (L.drop k)[i] = L[k + i] := List.getElem_drop L
  rw [List.getD_eq_getElem L (0, false) hkn, ← hpi, hdi]
  exact List.pairwise_iff_getElem.1 hstrict (k - 1) (k + i) hkn hkin (by omega)

/-- Counting events at or above a threshold separating the first k
sorted entries from the rest reduces to counting within the first k. -/
theorem countP_threshold_take (L : List (ℚ × Bool)) (pb : (ℚ × Bool) → Bool)
    (k : ℕ) (t : ℚ)
    (hub : ∀ p ∈ L.take k, t ≤ p.1) (hlb : ∀ p ∈ L.drop k, p.1 < t) :
    L.countP (fun p => pb p && decide (t ≤ p.1)) = (L.take k).countP pb := by
  conv_lhs => rw [← List.take_append_drop k L]
  rw [List.countP_append]
  have h1 : (L.take k).countP (fun p => pb p && decide (t ≤ p.1)) =
      (L.take k).countP pb :=
    countP_ext _ (fun p hp => by simp [hub p hp])
  have h2 : (L.drop k).countP (fun p => pb p && decide (t ≤ p.1)) = 0 :=
    List.countP_eq_zero.2 (fun p hp => by simp [not_le.2 (hlb p hp)])
  rw [h1, h2]
  omega

theorem youdenJ_eq_take_counts (y : List Bool) (s : List ℚ)
    (L : List (ℚ × Bool)) (hperm : L.Perm (s.zip y))
    (hlen : s.length = y.length)
    (hppos : 0 < y.countP (fun b => b))
    (hpneg : 0 < y.length - y.countP (fun b => b))
    (k : ℕ) (t : ℚ)
    (hub : ∀ p ∈ L.take k, t ≤ p.1) (hlb : ∀ p ∈ L.drop k, p.1 < t) :
    youdenJ y s t =
      ((L.take k).countP (fun p => p.2) : ℚ) / (y.countP (fun b => b) : ℚ) -
      ((L.take k).countP (fun p => !p.2) : ℚ) /
        ((y.length - y.countP (fun b => b) : ℕ) : ℚ) := by
  have htp : (y.zip (s.map (fun v => decide (t ≤ v)))).countP
        (fun p => p.1 && p.2) = (L.take k).countP (fun p => p.2) := by
    rw [countP_zip_swap_tp, ← hperm.countP_eq, countP_threshold_take L _ k t hub hlb]
  have hfp : (y.zip (s.map (fun v => decide (t ≤ v)))).countP
        (fun p => !p.1 && p.2) = (L.take k).countP (fun p => !p.2) := by
    rw [countP_zip_swap_fp, ← hperm.countP_eq, countP_threshold_take L _ k t hub hlb]
  have hzl : y.length ≤ (s.map (fun v => decide (t ≤ v))).length := by
    rw [List.length_map, hlen]
  have htotpos : (y.zip (s.map (fun v => decide (t ≤ v)))).countP (fun p => p.1) =
      y.countP (fun b => b) := countP_zip_left (fun b => b) y _ hzl
  have htotneg : (y.zip (s.map (fun v => decide (t ≤ v)))).countP (fun p => !p.1) =
      y.countP (fun b => !b) := countP_zip_left (fun b => !b) y _ hzl
  have hcntneg : y.countP (fun b => !b) = y.length - y.countP (fun b => b) := by
    have hsum := List.length_eq_countP_add_countP (fun b => (b : Bool)) (l := y)
    have hbridge : y.countP (fun b => !b) =
        y.countP (fun a => decide ¬(a = true)) :=
      countP_ext y (fun a _ => by cases a <;> rfl)
    omega
  have hsplitpos := countP_split (fun p : Bool × Bool => p.1) (fun p => p.2)
    (y.zip (s.map (fun v => decide (t ≤ v))))
  have hsplitneg := countP_split (fun p : Bool × Bool => !p.1) (fun p => p.2)
    (y.zip (s.map (fun v => decide (t ≤ v))))
  simp only [youdenJ, compute_confusion_at_threshold]
  have h1 := hsplitpos.trans htotpos
  have h2 := hsplitneg.trans (htotneg.trans hcntneg)
  have hd1 : ((List.countP (fun p => p.1 && p.2)
        (y.zip (List.map (fun v => decide (t ≤ v)) s)) : ℚ) +
      (List.countP (fun p => p.1 && !p.2)
        (y.zip (List.map (fun v => decide (t ≤ v)) s)) : ℚ)) =
      ((y.countP (fun b => b) : ℕ) : ℚ) := by
    rw [← Nat.cast_add]
    exact Nat.cast_inj.2 h1
  have hd2 : ((List.countP (fun p => !p.1 && p.2)
        (y.zip (List.map (fun v => decide (t ≤ v)) s)) : ℚ) +
      (List.countP (fun p => !p.1 && !p.2)
        (y.zip (List.map (fun v => decide (t ≤ v)) s)) : ℚ)) =
      ((y.length - y.countP (fun b => b) : ℕ) : ℚ) := by
    rw [← Nat.cast_add]
    exact Nat.cast_inj.2 h2
  rw [if_pos (by rw [h1]; exact hppos), if_pos (by rw [h2]; exact hpneg),
    hd1, hd2, htp, hfp]


theorem roc_tpr_getD (L : List (ℚ × Bool)) (np : ℕ) (k : ℕ) (hk : k ≤ L.length) :
    ((0:ℚ) :: (cumsum (L.map (fun p => if p.2 then (1:ℚ) else 0))).map
      (fun v => v / (np : ℚ))).getD k 0 =
    ((L.take k).countP (fun p => p.2) : ℚ) / (np : ℚ) := by
  cases k with
  | zero => simp
  | succ k2 =>
    rw [List.getD_cons_succ]
    have hk2 : k2 < (L.map (fun p => if p.2 then (1:ℚ) else 0)).length := by
      rw [List.length_map]; omega
    have hk2c : k2 < (cumsum (L.map (fun p => if p.2 then (1:ℚ) else 0))).length := by
      rw [cumsum_length]; exact hk2
    rw [getD_map_lt _ _ _ _ hk2c, ← List.getD_eq_getElem _ 0 hk2c,
      cumsum_getD _ _ hk2, ← List.map_take,
      sum_indicator _ (fun p => p.2) (fun p => rfl)]

theorem roc_fpr_getD (L : List (ℚ × Bool)) (nn : ℕ) (k : ℕ) (hk : k ≤ L.length) :
    ((0:ℚ) :: (cumsum (L.map (fun p => if p.2 then (0:ℚ) else 1))).map
      (fun v => v / (nn : ℚ))).getD k 0 =
    ((L.take k).countP (fun p => !p.2) : ℚ) / (nn : ℚ) := by
  cases k with
  | zero => simp
  | succ k2 =>
    rw [List.getD_cons_succ]
    have hk2 : k2 < (L.map (fun p => if p.2 then (0:ℚ) else 1)).length := by
      rw [List.length_map]; omega
    have hk2c : k2 < (cumsum (L.map (fun p => if p.2 then (0:ℚ) else 1))).length := by
      rw [cumsum_length]; exact hk2
    rw [getD_map_lt _ _ _ _ hk2c, ← List.getD_eq_getElem _ 0 hk2c,
      cumsum_getD _ _ hk2, ← List.map_take,
      sum_indicator _ (fun p => !p.2) (fun p => by cases hb : p.2 <;> simp [hb])]

theorem roc_grid_youdenJ (y : List Bool) (s : List ℚ) (s0 : ℚ × Bool)
    (rest : List (ℚ × Bool))
    (hperm : (s0 :: rest).Perm (s.zip y))
    (hsorted : (s0 :: rest).Pairwise scoreGe)
    (hstrict : (s0 :: rest).Pairwise (fun a b => b.1 < a.1))
    (hlen : s.length = y.length)
    (hppos : 0 < y.countP (fun b => b))
    (hpneg : 0 < y.length - y.countP (fun b => b))
    (k : ℕ) (hk : k ≤ (s0 :: rest).length) :
    youdenJ y s (((s0.1 + 1) :: (s0 :: rest).map (fun p => p.1)).getD k 0) =
      (((s0 :: rest).take k).countP (fun p => p.2) : ℚ) /
        (y.countP (fun b => b) : ℚ) -
      (((s0 :: rest).take k).countP (fun p => !p.2) : ℚ) /
        ((y.length - y.countP (fun b => b) : ℕ) : ℚ) := by
  refine youdenJ_eq_take_counts y s (s0 :: rest) hperm hlen hppos hpneg k _ ?_ ?_
  · intro p hp
    cases k with
    | zero => simp at hp
    | succ k2 =>
      have hk2 : k2 < (s0 :: rest).length := by omega
      rw [List.getD_cons_succ, getD_map_lt _ _ _ _ hk2]
      have hτ : (s0 :: rest)[k2] =
          (s0 :: rest).getD ((k2 + 1) - 1) ((0:ℚ), false) :=
        (List.getD_eq_getElem _ _ hk2).symm
      rw [hτ]
      exact take_score_ge (s0 :: rest) hsorted (k2 + 1) (by omega) (by omega) p hp
  · intro p hp
    cases k with
    | zero =>
      rw [List.getD_cons_zero]
      have hple : p.1 ≤ s0.1 := by
        rw [List.drop_zero] at hp
        rcases List.mem_cons.1 hp with h | h
        · rw [h]
        · exact (List.pairwise_cons.1 hsorted).1 p h
      linarith
    | succ k2 =>
      have hk2 : k2 < (s0 :: rest).length := by omega
      rw [List.getD_cons_succ, getD_map_lt _ _ _ _ hk2]
      have hτ : (s0 :: rest)[k2] =
          (s0 :: rest).getD ((k2 + 1) - 1) ((0:ℚ), false) :=
        (List.getD_eq_getElem _ _ hk2).symm
      rw [hτ]
      exact drop_score_lt (s0 :: rest) hstrict (k2 + 1) (by omega)
        (by simpa using hk2) p hp

/-- C5 (amended): on every training collection containing a positive
and a negative label and whose scores are pairwise distinct,
optimize_threshold returns a threshold of the ROC grid implied by the
observed scores that maximizes the Youden J statistic (TPR - FPR of
the predicate score >= t) over that grid.  (With tied scores this can
fail; see the counterexample theorem.) -/
theorem optimize_threshold_maximizes_youdenJ (y : List Bool) (s : List ℚ)
    (hlen : s.length = y.length) (hpos : true ∈ y) (hneg : false ∈ y)
    (hnd : s.Nodup) :
    ∃ auc fprC tprC thrC t,
      compute_roc_auc y s = some (auc, fprC, tprC, thrC) ∧
      optimize_threshold_core y s = some t ∧
      t ∈ thrC ∧
      ∀ u ∈ thrC, youdenJ y s u ≤ youdenJ y s t := by
  have hplen : (s.zip y).length = y.length := by
    rw [List.length_zip s y, hlen, min_self]
  have hperm0 : (List.insertionSort scoreGe (s.zip y)).Perm (s.zip y) :=
    List.perm_insertionSort _ _
  have hLlen0 : (List.insertionSort scoreGe (s.zip y)).length = y.length := by
    rw [hperm0.length_eq, hplen]
  have hyne : y ≠ [] := by
    intro h
    rw [h] at hpos
    exact List.not_mem_nil _ hpos
  have hLne : List.insertionSort scoreGe (s.zip y) ≠ [] := by
    intro h
    apply hyne
    apply List.length_eq_zero.1
    rw [← hLlen0, h]
    rfl
  obtain ⟨s0, rest, hLeq⟩ := List.exists_cons_of_ne_nil hLne
  have hperm : (s0 :: rest).Perm (s.zip y) := hLeq ▸ hperm0
  have hLlen : (s0 :: rest).length = y.length := hLeq ▸ hLlen0
  have hsorted : (s0 :: rest).Pairwise scoreGe :=
    hLeq ▸ List.sorted_insertionSort scoreGe (s.zip y)
  have hmapfst : (s.zip y).map Prod.fst = s := List.map_fst_zip s y (le_of_eq hlen)
  have hndL : ((s0 :: rest).map Prod.fst).Nodup := by
    have hpm : ((s0 :: rest).map Prod.fst).Perm ((s.zip y).map Prod.fst) :=
      hperm.map Prod.fst
    rw [hmapfst] at hpm
    exact hpm.nodup_iff.2 hnd
  have hneqp : (s0 :: rest).Pairwise (fun a b => a.1 ≠ b.1) :=
    List.pairwise_map.1 hndL
  have hstrict : (s0 :: rest).Pairwise (fun a b => b.1 < a.1) :=
    (List.Pairwise.and hsorted hneqp).imp
      (fun h => lt_of_le_of_ne h.1 (Ne.symm h.2))
  have hppos : 0 < y.countP (fun b => b) := List.countP_pos_iff.2 ⟨true, hpos, rfl⟩
  have hnple : y.countP (fun b => b) ≤ y.length := List.countP_le_length _
  have hnpne : y.countP (fun b => b) ≠ y.length := by
    intro h
    have hcontra := List.countP_eq_length.1 h false hneg
    simp at hcontra
  have hpneg : 0 < y.length - y.countP (fun b => b) := by omega
  have hcond : ¬(y.countP (fun b => b) = 0 ∨
      y.length - y.countP (fun b => b) = 0) := by
    rintro (h | h) <;> omega
  have hroc : compute_roc_auc y s = some
      (trapz ((0:ℚ) :: (cumsum ((s0 :: rest).map (fun p => if p.2 then (1:ℚ) else 0))).map
      (fun v => v / (y.countP (fun b => b) : ℚ))) ((0:ℚ) :: (cumsum ((s0 :: rest).map (fun p => if p.2 then (0:ℚ) else 1))).map
      (fun v => v / ((y.length - y.countP (fun b => b) : ℕ) : ℚ))), ((0:ℚ) :: (cumsum ((s0 :: rest).map (fun p => if p.2 then (0:ℚ) else 1))).map
      (fun v => v / ((y.length - y.countP (fun b => b) : ℕ) : ℚ))), ((0:ℚ) :: (cumsum ((s0 :: rest).map (fun p => if p.2 then (1:ℚ) else 0))).map
      (fun v => v / (y.countP (fun b => b) : ℚ))), ((s0.1 + 1) :: (s0 :: rest).map (fun p => p.1))) := by
    simp only [compute_roc_auc]
    rw [if_neg hcond, hLeq]
  have hTlen : (((0:ℚ) :: (cumsum ((s0 :: rest).map (fun p => if p.2 then (1:ℚ) else 0))).map
      (fun v => v / (y.countP (fun b => b) : ℚ)))).length = (s0 :: rest).length + 1 := by
    simp [cumsum_length]
  have hFlen : (((0:ℚ) :: (cumsum ((s0 :: rest).map (fun p => if p.2 then (0:ℚ) else 1))).map
      (fun v => v / ((y.length - y.countP (fun b => b) : ℕ) : ℚ)))).length = (s0 :: rest).length + 1 := by
    simp [cumsum_length]
  have hThrLen : (((s0.1 + 1) :: (s0 :: rest).map (fun p => p.1))).length = (s0 :: rest).length + 1 := by
    simp
  have hjlen : ((List.zipWith (fun a b => a - b) ((0:ℚ) :: (cumsum ((s0 :: rest).map (fun p => if p.2 then (1:ℚ) else 0))).map
      (fun v => v / (y.countP (fun b => b) : ℚ))) ((0:ℚ) :: (cumsum ((s0 :: rest).map (fun p => if p.2 then (0:ℚ) else 1))).map
      (fun v => v / ((y.length - y.countP (fun b => b) : ℕ) : ℚ))))).length = (s0 :: rest).length + 1 := by
    rw [List.length_zipWith, hTlen, hFlen, min_self]
  have hjne : (List.zipWith (fun a b => a - b) ((0:ℚ) :: (cumsum ((s0 :: rest).map (fun p => if p.2 then (1:ℚ) else 0))).map
      (fun v => v / (y.countP (fun b => b) : ℚ))) ((0:ℚ) :: (cumsum ((s0 :: rest).map (fun p => if p.2 then (0:ℚ) else 1))).map
      (fun v => v / ((y.length - y.countP (fun b => b) : ℕ) : ℚ)))) ≠ [] := by
    intro h
    rw [h] at hjlen
    simp at hjlen
  obtain ⟨hblt, hbmax⟩ := argmax_spec (List.zipWith (fun a b => a - b) ((0:ℚ) :: (cumsum ((s0 :: rest).map (fun p => if p.2 then (1:ℚ) else 0))).map
      (fun v => v / (y.countP (fun b => b) : ℚ))) ((0:ℚ) :: (cumsum ((s0 :: rest).map (fun p => if p.2 then (0:ℚ) else 1))).map
      (fun v => v / ((y.length - y.countP (fun b => b) : ℕ) : ℚ)))) hjne
  rw [hjlen] at hblt
  have hthadx : argmax (List.zipWith (fun a b => a - b) ((0:ℚ) :: (cumsum ((s0 :: rest).map (fun p => if p.2 then (1:ℚ) else 0))).map
      (fun v => v / (y.countP (fun b => b) : ℚ))) ((0:ℚ) :: (cumsum ((s0 :: rest).map (fun p => if p.2 then (0:ℚ) else 1))).map
      (fun v => v / ((y.length - y.countP (fun b => b) : ℕ) : ℚ)))) < (((s0.1 + 1) :: (s0 :: rest).map (fun p => p.1))).length := by
    rw [hThrLen]
    exact hblt
  have hopt : optimize_threshold_core y s =
      some ((((s0.1 + 1) :: (s0 :: rest).map (fun p => p.1))).getD (argmax (List.zipWith (fun a b => a - b) ((0:ℚ) :: (cumsum ((s0 :: rest).map (fun p => if p.2 then (1:ℚ) else 0))).map
      (fun v => v / (y.countP (fun b => b) : ℚ))) ((0:ℚ) :: (cumsum ((s0 :: rest).map (fun p => if p.2 then (0:ℚ) else 1))).map
      (fun v => v / ((y.length - y.countP (fun b => b) : ℕ) : ℚ))))) 0) := by
    simp only [optimize_threshold_core, hroc]
    rw [List.get?_eq_getElem?, List.getElem?_eq_getElem hthadx,
      List.getD_eq_getElem _ 0 hthadx]
  have hjentry : ∀ k, k < (s0 :: rest).length + 1 →
      ((List.zipWith (fun a b => a - b) ((0:ℚ) :: (cumsum ((s0 :: rest).map (fun p => if p.2 then (1:ℚ) else 0))).map
      (fun v => v / (y.countP (fun b => b) : ℚ))) ((0:ℚ) :: (cumsum ((s0 :: rest).map (fun p => if p.2 then (0:ℚ) else 1))).map
      (fun v => v / ((y.length - y.countP (fun b => b) : ℕ) : ℚ))))).getD k 0 = youdenJ y s ((((s0.1 + 1) :: (s0 :: rest).map (fun p => p.1))).getD k 0) := by
    intro k hk
    have hkT : k < (((0:ℚ) :: (cumsum ((s0 :: rest).map (fun p => if p.2 then (1:ℚ) else 0))).map
      (fun v => v / (y.countP (fun b => b) : ℚ)))).length := by rw [hTlen]; omega
    have hkF : k < (((0:ℚ) :: (cumsum ((s0 :: rest).map (fun p => if p.2 then (0:ℚ) else 1))).map
      (fun v => v / ((y.length - y.countP (fun b => b) : ℕ) : ℚ)))).length := by rw [hFlen]; omega
    have hkJ : k < ((List.zipWith (fun a b => a - b) ((0:ℚ) :: (cumsum ((s0 :: rest).map (fun p => if p.2 then (1:ℚ) else 0))).map
      (fun v => v / (y.countP (fun b => b) : ℚ))) ((0:ℚ) :: (cumsum ((s0 :: rest).map (fun p => if p.2 then (0:ℚ) else 1))).map
      (fun v => v / ((y.length - y.countP (fun b => b) : ℕ) : ℚ))))).length := by rw [hjlen]; omega
    rw [List.getD_eq_getElem _ 0 hkJ, List.getElem_zipWith,
      ← List.getD_eq_getElem _ 0 hkT, ← List.getD_eq_getElem _ 0 hkF,
      roc_tpr_getD _ _ _ (by omega), roc_fpr_getD _ _ _ (by omega),
      roc_grid_youdenJ y s s0 rest hperm hsorted hstrict hlen hppos hpneg k
        (by omega)]
  refine ⟨_, _, _, _, _, hroc, hopt, ?_, ?_⟩
  · rw [List.getD_eq_getElem _ 0 hthadx]
    exact List.getElem_mem hthadx
  · intro u hu
    obtain ⟨k, hk, hku⟩ := List.mem_iff_getElem.1 hu
    have hk2 : k < (s0 :: rest).length + 1 := by
      rw [hThrLen] at hk
      exact hk
    have hu2 : u = (((s0.1 + 1) :: (s0 :: rest).map (fun p => p.1))).getD k 0 := by
      rw [List.getD_eq_getElem _ 0 hk, hku]
    rw [hu2, ← hjentry k hk2, ← hjentry (argmax (List.zipWith (fun a b => a - b) ((0:ℚ) :: (cumsum ((s0 :: rest).map (fun p => if p.2 then (1:ℚ) else 0))).map
      (fun v => v / (y.countP (fun b => b) : ℚ))) ((0:ℚ) :: (cumsum ((s0 :: rest).map (fun p => if p.2 then (0:ℚ) else 1))).map
      (fun v => v / ((y.length - y.countP (fun b => b) : ℕ) : ℚ))))) hblt]
    exact hbmax k (by rw [hjlen]; omega)

/-- Witness for the amended C5 at the concrete collection with labels
[true, false] and distinct scores [2, 1]. -/
theorem optimize_threshold_maximizes_youdenJ_witness :
    ∃ auc fprC tprC thrC t,
      compute_roc_auc [true, false] [2, 1] = some (auc, fprC, tprC, thrC) ∧
      optimize_threshold_core [true, false] [2, 1] = some t ∧
      t ∈ thrC ∧
      ∀ u ∈ thrC,
        youdenJ [true, false] [2, 1] u ≤ youdenJ [true, false] [2, 1] t :=
  optimize_threshold_maximizes_youdenJ [true, false] [2, 1] (by decide)
    (by decide) (by decide) (by decide)
